import Mathlib

/-!
Shallow embedding of the instruction-sequence analyzer of tmdgusya/python-deepdive:
the basic-block partitioner / CFG builder (`src/tools/cfg_visualizer.py`) and the
symbolic stack simulator (`src/tools/bytecode_tracer.py`).

Modelling conventions:
  - A decoded `dis.Instruction` becomes the record `Instr` (offset, opname,
    numeric opcode, raw arg, resolved argval, argrepr).
  - Python dicts become insertion-ordered association lists with
    replace-in-place-or-append assignment (`dinsert`), matching CPython's
    guaranteed dict ordering.
  - The Python `set` used for block starts becomes a list with
    membership-guarded insertion (`sadd`); only membership is ever observed.
  - The operand stack is a `List Value` with the top at the END of the list,
    mirroring `list.append` / `list.pop` on the Python list.
  - Fallible operations (a pop that can raise IndexError, an out-of-range
    table index) run in `Except SimError`.
-/

/-- Substring test: [hasPrefixC ys xs] is true when ys is a prefix of xs. -/
def hasPrefixC : List Char → List Char → Bool
  | [], _ => true
  | _ :: _, [] => false
  | c :: cs, d :: ds => c == d && hasPrefixC cs ds

/-- Substring test on char lists: true when ys occurs contiguously in xs. -/
def hasSubC (ys : List Char) : List Char → Bool
  | [] => ys.isEmpty
  | x :: tl => hasPrefixC ys (x :: tl) || hasSubC ys tl

/-- Python's `needle in hay` on strings. -/
def strContains (hay needle : String) : Bool :=
  hasSubC needle.toList hay.toList

/-- Resolved operand of an instruction (`dis.Instruction.argval`): either an
integer (a jump target or numeric constant index) or some other value, which
the analyzer only ever checks with `isinstance(-, int)`. -/
inductive ArgVal where
  | int (n : Int)
  | str (s : String)
deriving DecidableEq

/-- One decoded instruction, the shape of `dis.Instruction` as the analyzer
consumes it. -/
structure Instr where
  offset : Int
  opname : String
  opcode : Nat
  arg : Option Nat
  argval : Option ArgVal
  argrepr : String
deriving DecidableEq

/-- `JUMP_OPCODES` from cfg_visualizer.py. -/
def JUMP_OPCODES : List String :=
  ["JUMP_FORWARD", "JUMP_BACKWARD", "JUMP_ABSOLUTE",
   "POP_JUMP_IF_FALSE", "POP_JUMP_IF_TRUE",
   "JUMP_IF_FALSE_OR_POP", "JUMP_IF_TRUE_OR_POP",
   "FOR_ITER", "JUMP_IF_NOT_EXC_MATCH",
   "POP_JUMP_FORWARD_IF_FALSE", "POP_JUMP_FORWARD_IF_TRUE",
   "POP_JUMP_BACKWARD_IF_FALSE", "POP_JUMP_BACKWARD_IF_TRUE",
   "POP_JUMP_FORWARD_IF_NONE", "POP_JUMP_BACKWARD_IF_NONE",
   "POP_JUMP_FORWARD_IF_NOT_NONE", "POP_JUMP_BACKWARD_IF_NOT_NONE"]

/-- A basic block: `start_offset`, `end_offset`, its instruction run, the
successor start offsets, and the per-successor conditional flag
(`is_conditional` is a Python dict, kept as an insertion-ordered list). -/
structure BasicBlock where
  start_offset : Int
  end_offset : Int
  instructions : List Instr
  successors : List Int
  is_conditional : List (Int × Bool)
deriving DecidableEq

/-- `BasicBlock.__init__(start_offset)`. -/
def BasicBlock.init (start : Int) : BasicBlock :=
  ⟨start, start, [], [], []⟩

/-- `BasicBlock.add_instruction`. -/
def BasicBlock.add_instruction (b : BasicBlock) (i : Instr) : BasicBlock :=
  { b with instructions := b.instructions ++ [i], end_offset := i.offset }

/-- Python dict assignment `d[k] = v`: replace in place when the key exists,
otherwise append (CPython insertion-order semantics). -/
def dinsert {α β : Type} [DecidableEq α] (d : List (α × β)) (k : α) (v : β) :
    List (α × β) :=
  if k ∈ d.map Prod.fst then
    d.map (fun p => if p.1 = k then (k, v) else p)
  else d ++ [(k, v)]

/-- Python `d.get(k)` / `d[k]` lookup returning the first (unique) binding. -/
def dlookup {α β : Type} [DecidableEq α] (d : List (α × β)) (k : α) : Option β :=
  (d.find? (fun p => p.1 == k)).map (·.2)

/-- `BasicBlock.add_successor`: append the offset and record its conditional
flag only when the offset is not already a successor. -/
def BasicBlock.add_successor (b : BasicBlock) (offset : Int) (is_cond : Bool) :
    BasicBlock :=
  if offset ∈ b.successors then b
  else { b with successors := b.successors ++ [offset],
                is_conditional := dinsert b.is_conditional offset is_cond }

/-- Python `set.add` observed only through membership: insert if absent. -/
def sadd (s : List Int) (x : Int) : List Int :=
  if x ∈ s then s else s ++ [x]

/-- Jump-target part of the block-start scan: a jump instruction whose
resolved `argval` is an integer marks that target offset as a block start. -/
def markTargetStart (instr : Instr) (s : List Int) : List Int :=
  if instr.opname ∈ JUMP_OPCODES then
    match instr.argval with
    | some (ArgVal.int t) => sadd s t
    | _ => s
  else s

/-- Fall-through part of the block-start scan: the offset of the instruction
following a jump (the head of the remaining list) is a block start. -/
def markFallStart (instr : Instr) (rest : List Instr) (s : List Int) :
    List Int :=
  if instr.opname ∈ JUMP_OPCODES then
    match rest with
    | nxt :: _ => sadd s nxt.offset
    | [] => s
  else s

/-- First pass of `extract_basic_blocks`: collect block-start offsets. -/
def markStarts : List Instr → List Int → List Int
  | [], s => s
  | instr :: rest, s =>
    markStarts rest (markFallStart instr rest (markTargetStart instr s))

/-- Commit the open block (if any) into the mapping, keyed by its
`start_offset`. -/
def commitBlock (blocks : List (Int × BasicBlock)) (cur : Option BasicBlock) :
    List (Int × BasicBlock) :=
  match cur with
  | some b => dinsert blocks b.start_offset b
  | none => blocks

/-- Second pass of `extract_basic_blocks`: group instructions into blocks.
`cur` is the `current_block` local; on reaching a start offset the open block
is committed into the (insertion-ordered) mapping, a fresh block opens, and
the instruction is appended to whichever block is open. -/
def groupLoop (starts : List Int) :
    List Instr → List (Int × BasicBlock) → Option BasicBlock →
    List (Int × BasicBlock)
  | [], blocks, cur => commitBlock blocks cur
  | instr :: rest, blocks, cur =>
    if instr.offset ∈ starts then
      groupLoop starts rest (commitBlock blocks cur)
        (some ((BasicBlock.init instr.offset).add_instruction instr))
    else
      groupLoop starts rest blocks
        (match cur with
         | some b => some (b.add_instruction instr)
         | none => none)

/-- Insertion of an integer into an ascending list (one step of the model of
Python's `sorted`). -/
def insSorted (x : Int) : List Int → List Int
  | [] => [x]
  | y :: ys => if x ≤ y then x :: y :: ys else y :: insSorted x ys

/-- Model of Python `sorted` on the (duplicate-free) key list. -/
def sortInts (l : List Int) : List Int :=
  l.foldr insSorted []

/-- Conditional-branch family test used on a jump opcode:
`"IF" in opname or opname == "FOR_ITER"`. -/
def condFamily (op : String) : Bool :=
  strContains op "IF" || op == "FOR_ITER"

/-- Jump-target half of the edge rule: when the last (jump) instruction has an
integer resolved target, add the edge to it, conditional exactly for the
conditional-branch family. -/
def targetEdge (last : Instr) (b : BasicBlock) : BasicBlock :=
  match last.argval with
  | some (ArgVal.int t) => b.add_successor t (condFamily last.opname)
  | _ => b

/-- Fall-through half of the jump edge rule: for the conditional family, add a
conditional edge to the first block key after the jump's own offset. -/
def jumpFallThrough (ks : List Int) (last : Instr) (b1 : BasicBlock) :
    BasicBlock :=
  if condFamily last.opname then
    match ks.find? (fun k => last.offset < k) with
    | some nxt => b1.add_successor nxt true
    | none => b1
  else b1

/-- Plain fall-through rule for a block ending in an ordinary instruction: an
unconditional edge to the first block key after the block's own key. -/
def seqFallThrough (ks : List Int) (offset : Int) (b : BasicBlock) :
    BasicBlock :=
  match ks.find? (fun k => offset < k) with
  | some nxt => b.add_successor nxt false
  | none => b

/-- Third pass of `extract_basic_blocks`: attach successor edges to one block,
driven by its last instruction.  `ks` is `sorted(blocks.keys())` and `offset`
the block's key in the mapping. -/
def addEdges (ks : List Int) (offset : Int) (b : BasicBlock) : BasicBlock :=
  match b.instructions.getLast? with
  | none => b
  | some last =>
    if last.opname ∈ JUMP_OPCODES then
      jumpFallThrough ks last (targetEdge last b)
    else if last.opname ∈ ["RETURN_VALUE", "RAISE_VARARGS", "RERAISE"] then b
    else seqFallThrough ks offset b

/-- `extract_basic_blocks` over a decoded instruction sequence: mark block
starts, group the instructions into blocks, then attach edges.  Returns the
insertion-ordered mapping from start offset to block. -/
def extract_basic_blocks (instrs : List Instr) : List (Int × BasicBlock) :=
  match instrs with
  | [] => []
  | i0 :: _ =>
    let starts := markStarts instrs [i0.offset]
    let blocks := groupLoop starts instrs [] none
    let ks := sortInts (blocks.map Prod.fst)
    blocks.map (fun p => (p.1, addEdges ks p.1 p.2))

/-- Python `succ_offset == last_instr.argval` where `succ_offset` is an int:
true only when the resolved operand is that integer. -/
def argvalIntEq (av : Option ArgVal) (succ : Int) : Bool :=
  match av with
  | some (ArgVal.int t) => succ == t
  | _ => false

/-- Edge-label computation of `visualize_cfg` for a conditional edge out of a
block whose last instruction is `last`, toward successor offset `succ`. -/
def edgeLabel (last : Instr) (succ : Int) : String :=
  if strContains last.opname "IF_TRUE" then
    (if argvalIntEq last.argval succ then "True" else "False")
  else if strContains last.opname "IF_FALSE" then
    (if argvalIntEq last.argval succ then "False" else "True")
  else if last.opname == "FOR_ITER" then
    (if argvalIntEq last.argval succ then "iter" else "next")
  else
    (if argvalIntEq last.argval succ then "jump" else "fall")

/-! ### Basic lemmas about the dictionary / set / block primitives -/

theorem dinsert_of_not_mem {α β : Type} [DecidableEq α]
    {d : List (α × β)} {k : α} (v : β) (h : k ∉ d.map Prod.fst) :
    dinsert d k v = d ++ [(k, v)] := by
  unfold dinsert
  simp [h]

theorem mem_dinsert {α β : Type} [DecidableEq α]
    {d : List (α × β)} {k : α} {v : β} {p : α × β}
    (hp : p ∈ dinsert d k v) : p ∈ d ∨ p = (k, v) := by
  unfold dinsert at hp
  split at hp
  · rcases List.mem_map.1 hp with ⟨q, hq, he⟩
    by_cases hk : q.1 = k
    · right; rw [if_pos hk] at he; exact he.symm
    · left; rw [if_neg hk] at he; exact he ▸ hq
  · rcases List.mem_append.1 hp with h | h
    · exact Or.inl h
    · right; simpa using h

theorem add_successor_instructions (b : BasicBlock) (o : Int) (c : Bool) :
    (b.add_successor o c).instructions = b.instructions := by
  unfold BasicBlock.add_successor
  split <;> rfl

theorem add_successor_len (b : BasicBlock) (o : Int) (c : Bool) :
    (b.add_successor o c).successors.length ≤ b.successors.length + 1 := by
  unfold BasicBlock.add_successor
  split
  · omega
  · simp

/-! ### Claim C9: the `add_successor` invariant -/

/-- Invariant of a block's successor bookkeeping: no duplicate successors and
the `is_conditional` keys are exactly the successors, in order. -/
def succInvariant (b : BasicBlock) : Prop :=
  b.successors.Nodup ∧ b.is_conditional.map Prod.fst = b.successors

theorem add_successor_invariant {b : BasicBlock} (h : succInvariant b)
    (o : Int) (c : Bool) : succInvariant (b.add_successor o c) := by
  obtain ⟨hnd, hkeys⟩ := h
  unfold BasicBlock.add_successor
  split
  · exact ⟨hnd, hkeys⟩
  · rename_i hmem
    constructor
    · simpa [List.nodup_append] using ⟨hnd, hmem⟩
    · rw [dinsert_of_not_mem _ (by rw [hkeys]; exact hmem)]
      simp [hkeys]

theorem add_successor_of_mem {b : BasicBlock} {o : Int} (c : Bool)
    (h : o ∈ b.successors) : b.add_successor o c = b := by
  unfold BasicBlock.add_successor
  simp [h]

/-- A fresh block after a whole sequence of `add_successor` calls. -/
def applyAddSuccessors (start : Int) (calls : List (Int × Bool)) : BasicBlock :=
  calls.foldl (fun bl p => bl.add_successor p.1 p.2) (BasicBlock.init start)

/-- Claim C9: after any sequence of `add_successor` calls on a fresh block,
the successors list is duplicate-free, the `is_conditional` key list equals
the successors list, and a repeated `add_successor` for an offset already
present changes nothing (in particular the first conditional classification
is kept). -/
theorem basicBlock_add_successor_invariant (start : Int)
    (calls : List (Int × Bool)) :
    (applyAddSuccessors start calls).successors.Nodup ∧
      (applyAddSuccessors start calls).is_conditional.map Prod.fst
        = (applyAddSuccessors start calls).successors ∧
      ∀ o c, o ∈ (applyAddSuccessors start calls).successors →
        (applyAddSuccessors start calls).add_successor o c
          = applyAddSuccessors start calls := by
  have key : ∀ (l : List (Int × Bool)) (b0 : BasicBlock), succInvariant b0 →
      succInvariant (l.foldl (fun bl p => bl.add_successor p.1 p.2) b0) := by
    intro l
    induction l with
    | nil => intro b0 h; exact h
    | cons p tl ih =>
      intro b0 h
      exact ih _ (add_successor_invariant h p.1 p.2)
  have hinv := key calls (BasicBlock.init start) ⟨List.nodup_nil, rfl⟩
  exact ⟨hinv.1, hinv.2, fun o c ho => add_successor_of_mem c ho⟩

/-- Witness for C9 at a concrete call sequence: the offset 4 is added twice
(second time with the opposite flag) and the repeated call is a no-op. -/
theorem basicBlock_add_successor_invariant_witness :
    (applyAddSuccessors 0 [(4, true), (6, false), (4, false)]).successors.Nodup ∧
      (applyAddSuccessors 0 [(4, true), (6, false), (4, false)]).is_conditional.map
          Prod.fst
        = (applyAddSuccessors 0 [(4, true), (6, false), (4, false)]).successors ∧
      (applyAddSuccessors 0 [(4, true), (6, false), (4, false)]).add_successor
          4 false
        = applyAddSuccessors 0 [(4, true), (6, false), (4, false)] := by
  have h := basicBlock_add_successor_invariant 0 [(4, true), (6, false), (4, false)]
  exact ⟨h.1, h.2.1, h.2.2 4 false (by decide)⟩


/-! ### Claim C4: successor bound -/

/-- Blocks as produced by the grouping pass: no successor bookkeeping yet. -/
def freshSucc (b : BasicBlock) : Prop :=
  b.successors = []

theorem commitBlock_fresh {blocks : List (Int × BasicBlock)}
    {cur : Option BasicBlock}
    (hb : ∀ p ∈ blocks, freshSucc p.2)
    (hc : ∀ b, cur = some b → freshSucc b) :
    ∀ p ∈ commitBlock blocks cur, freshSucc p.2 := by
  intro p hp
  unfold commitBlock at hp
  cases cur with
  | some b =>
    rcases mem_dinsert hp with h | h
    · exact hb p h
    · rw [h]; exact hc b rfl
  | none => exact hb p hp

theorem groupLoop_freshSucc (starts : List Int) :
    ∀ (l : List Instr) (blocks : List (Int × BasicBlock))
      (cur : Option BasicBlock),
      (∀ p ∈ blocks, freshSucc p.2) → (∀ b, cur = some b → freshSucc b) →
      ∀ p ∈ groupLoop starts l blocks cur, freshSucc p.2 := by
  intro l
  induction l with
  | nil =>
    intro blocks cur hb hc p hp
    unfold groupLoop at hp
    exact commitBlock_fresh hb hc p hp
  | cons instr rest ih =>
    intro blocks cur hb hc p hp
    unfold groupLoop at hp
    by_cases hs : instr.offset ∈ starts
    · rw [if_pos hs] at hp
      refine ih _ _ (commitBlock_fresh hb hc) ?_ p hp
      intro b2 hbeq
      cases hbeq
      rfl
    · rw [if_neg hs] at hp
      refine ih _ _ hb ?_ p hp
      cases cur with
      | some b =>
        intro b2 hbeq
        cases hbeq
        have hfb := hc b rfl
        unfold freshSucc BasicBlock.add_instruction
        simpa using hfb
      | none => intro b2 hbeq; cases hbeq

theorem targetEdge_instructions (last : Instr) (b : BasicBlock) :
    (targetEdge last b).instructions = b.instructions := by
  unfold targetEdge
  split <;> simp [add_successor_instructions]

theorem jumpFallThrough_instructions (ks : List Int) (last : Instr)
    (b1 : BasicBlock) :
    (jumpFallThrough ks last b1).instructions = b1.instructions := by
  unfold jumpFallThrough
  split
  · split <;> simp [add_successor_instructions]
  · rfl

theorem seqFallThrough_instructions (ks : List Int) (offset : Int)
    (b : BasicBlock) :
    (seqFallThrough ks offset b).instructions = b.instructions := by
  unfold seqFallThrough
  split <;> simp [add_successor_instructions]

theorem addEdges_instructions (ks : List Int) (off : Int) (b : BasicBlock) :
    (addEdges ks off b).instructions = b.instructions := by
  unfold addEdges
  split
  · rfl
  · split
    · rw [jumpFallThrough_instructions, targetEdge_instructions]
    · split
      · rfl
      · exact seqFallThrough_instructions ..

theorem targetEdge_len (last : Instr) {b : BasicBlock} (h : freshSucc b) :
    (targetEdge last b).successors.length ≤ 1 := by
  unfold targetEdge
  unfold freshSucc at h
  split
  · rename_i t heq
    have := add_successor_len b t (condFamily last.opname)
    rw [h] at this
    simpa using this
  · simp [h]

theorem jumpFallThrough_len (ks : List Int) (last : Instr) (b1 : BasicBlock) :
    (jumpFallThrough ks last b1).successors.length ≤
      b1.successors.length + 1 ∧
      (condFamily last.opname = false →
        jumpFallThrough ks last b1 = b1) := by
  unfold jumpFallThrough
  split
  · constructor
    · split
      · exact add_successor_len ..
      · omega
    · intro hc
      simp_all
  · exact ⟨by omega, fun _ => rfl⟩

theorem addEdges_bound (ks : List Int) (off : Int) (b : BasicBlock)
    (h : freshSucc b) :
    (addEdges ks off b).successors.length ≤ 2 ∧
      ((addEdges ks off b).successors.length = 2 →
        ∃ last, b.instructions.getLast? = some last ∧
          last.opname ∈ JUMP_OPCODES ∧ condFamily last.opname = true) := by
  have hb : b.successors.length = 0 := by
    unfold freshSucc at h
    simp [h]
  cases hl : b.instructions.getLast? with
  | none =>
    simp only [addEdges, hl]
    exact ⟨by omega, fun h2 => absurd h2 (by omega)⟩
  | some last =>
    simp only [addEdges, hl]
    by_cases hj : last.opname ∈ JUMP_OPCODES
    · rw [if_pos hj]
      have ht := targetEdge_len last h
      have hf := jumpFallThrough_len ks last (targetEdge last b)
      refine ⟨by omega, fun h2 => ⟨last, rfl, hj, ?_⟩⟩
      by_cases hc : condFamily last.opname
      · exact hc
      · exfalso
        rw [hf.2 (by simpa using hc)] at h2
        omega
    · rw [if_neg hj]
      by_cases hterm : last.opname ∈ ["RETURN_VALUE", "RAISE_VARARGS", "RERAISE"]
      · rw [if_pos hterm]
        exact ⟨by omega, fun h2 => absurd h2 (by omega)⟩
      · rw [if_neg hterm]
        unfold seqFallThrough
        split
        · rename_i nxt hnxt
          have := add_successor_len b nxt false
          exact ⟨by omega, fun h2 => absurd h2 (by omega)⟩
        · exact ⟨by omega, fun h2 => absurd h2 (by omega)⟩

/-- Claim C4: every block produced by `extract_basic_blocks` has at most two
successors, and it has exactly two only when the block's last instruction is a
conditional-branch-family opcode (an `"IF"`-style conditional jump or
`FOR_ITER`). -/
theorem extract_basic_blocks_successor_bound
    (instrs : List Instr) (off : Int) (b : BasicBlock)
    (hmem : (off, b) ∈ extract_basic_blocks instrs) :
    b.successors.length ≤ 2 ∧
      (b.successors.length = 2 →
        ∃ last, b.instructions.getLast? = some last ∧
          last.opname ∈ JUMP_OPCODES ∧ condFamily last.opname = true) := by
  match instrs with
  | [] => simp [extract_basic_blocks] at hmem
  | i0 :: rest =>
    unfold extract_basic_blocks at hmem
    simp only [List.mem_map] at hmem
    obtain ⟨p, hp, he⟩ := hmem
    have hfresh : freshSucc p.2 :=
      groupLoop_freshSucc _ _ [] none (by simp) (by simp) p hp
    have hb : b = addEdges
        (sortInts ((groupLoop (markStarts (i0 :: rest) [i0.offset])
          (i0 :: rest) [] none).map Prod.fst)) p.1 p.2 :=
      congrArg Prod.snd he.symm
    subst hb
    have hres := addEdges_bound
      (sortInts ((groupLoop (markStarts (i0 :: rest) [i0.offset])
        (i0 :: rest) [] none).map Prod.fst)) p.1 p.2 hfresh
    refine ⟨hres.1, fun hl => ?_⟩
    obtain ⟨last, hlast, hrest⟩ := hres.2 hl
    refine ⟨last, ?_, hrest⟩
    rw [addEdges_instructions]
    exact hlast

/-- An if-shaped example program (load x; conditional jump to 8; then two
return blocks), used to instantiate theorems with hypotheses. -/
def exProg : List Instr :=
  [⟨0, "LOAD_FAST", 124, some 0, some (ArgVal.str "x"), "x"⟩,
   ⟨2, "POP_JUMP_IF_FALSE", 114, some 4, some (ArgVal.int 8), "to 8"⟩,
   ⟨4, "LOAD_FAST", 124, some 0, some (ArgVal.str "x"), "x"⟩,
   ⟨6, "RETURN_VALUE", 83, none, none, ""⟩,
   ⟨8, "LOAD_CONST", 100, some 0, some (ArgVal.int 0), "0"⟩,
   ⟨10, "RETURN_VALUE", 83, none, none, ""⟩]

/-- The entry block `extract_basic_blocks` produces for `exProg`. -/
def exBlock0 : BasicBlock :=
  ⟨0, 2,
   [⟨0, "LOAD_FAST", 124, some 0, some (ArgVal.str "x"), "x"⟩,
    ⟨2, "POP_JUMP_IF_FALSE", 114, some 4, some (ArgVal.int 8), "to 8"⟩],
   [8, 4], [(8, true), (4, true)]⟩

/-- Witness for C4: the entry block of `exProg` is in the mapping, has two
successors, and its last instruction (`POP_JUMP_IF_FALSE`) is in the
conditional-branch family. -/
theorem extract_basic_blocks_successor_bound_witness :
    exBlock0.successors.length ≤ 2 ∧
      (exBlock0.successors.length = 2 →
        ∃ last, exBlock0.instructions.getLast? = some last ∧
          last.opname ∈ JUMP_OPCODES ∧ condFamily last.opname = true) :=
  extract_basic_blocks_successor_bound exProg 0 exBlock0 (by decide)

/-! ### Membership lemmas for the block-start scan -/

theorem mem_sadd_of_mem {s : List Int} {x : Int} (y : Int) (h : x ∈ s) :
    x ∈ sadd s y := by
  unfold sadd
  split
  · exact h
  · exact List.mem_append_left _ h

theorem mem_sadd_self (s : List Int) (y : Int) : y ∈ sadd s y := by
  unfold sadd
  split
  · assumption
  · simp

theorem mem_markTargetStart_of_mem (instr : Instr) {s : List Int} {x : Int}
    (h : x ∈ s) : x ∈ markTargetStart instr s := by
  unfold markTargetStart
  split
  · split
    · exact mem_sadd_of_mem _ h
    · exact h
  · exact h

theorem mem_markFallStart_of_mem (instr : Instr) (rest : List Instr)
    {s : List Int} {x : Int} (h : x ∈ s) : x ∈ markFallStart instr rest s := by
  unfold markFallStart
  split
  · split
    · exact mem_sadd_of_mem _ h
    · exact h
  · exact h

theorem mem_markStarts_of_mem :
    ∀ (l : List Instr) {s : List Int} {x : Int}, x ∈ s → x ∈ markStarts l s := by
  intro l
  induction l with
  | nil => intro s x h; exact h
  | cons instr rest ih =>
    intro s x h
    unfold markStarts
    exact ih (mem_markFallStart_of_mem instr rest
      (mem_markTargetStart_of_mem instr h))

/-- Every integer jump target of an instruction in the list ends up in the
block-start set. -/
theorem markStarts_target :
    ∀ (l : List Instr) (s : List Int) (i : Instr) (t : Int), i ∈ l →
      i.opname ∈ JUMP_OPCODES → i.argval = some (ArgVal.int t) →
      t ∈ markStarts l s := by
  intro l
  induction l with
  | nil => intro s i t h; cases h
  | cons instr rest ih =>
    intro s i t hmem hj hav
    unfold markStarts
    rcases List.mem_cons.1 hmem with heq | htl
    · subst heq
      apply mem_markStarts_of_mem
      apply mem_markFallStart_of_mem
      unfold markTargetStart
      rw [if_pos hj, hav]
      exact mem_sadd_self ..
    · exact ih _ i t htl hj hav

/-! ### The grouping-pass specification (keys and instruction partition) -/

/-- Core specification of `groupLoop` when a block is open: the keys of the
result are the existing keys, then the open block's start, then the offsets of
the remaining instructions that are block starts; and the concatenated
instruction lists of the result are the existing ones, then the open block's
instructions, then the remaining instructions. -/
theorem groupLoop_spec (starts : List Int) :
    ∀ (rest : List Instr) (blocks : List (Int × BasicBlock)) (b : BasicBlock),
      (∀ k ∈ blocks.map Prod.fst, k < b.start_offset) →
      (∀ i ∈ rest, b.start_offset < i.offset) →
      ((rest.map Instr.offset).Pairwise (· < ·)) →
      (groupLoop starts rest blocks (some b)).map Prod.fst
          = blocks.map Prod.fst ++ b.start_offset ::
            ((rest.filter (fun i => decide (i.offset ∈ starts))).map
              Instr.offset) ∧
        ((groupLoop starts rest blocks (some b)).map
            (fun p => p.2.instructions)).flatten
          = ((blocks.map (fun p => p.2.instructions)).flatten
              ++ b.instructions) ++ rest := by
  intro rest
  induction rest with
  | nil =>
    intro blocks b hlt _ _
    have hnot : b.start_offset ∉ blocks.map Prod.fst := by
      intro hmem
      exact absurd rfl (Int.ne_of_lt (hlt _ hmem))
    have hgl : groupLoop starts [] blocks (some b)
        = blocks ++ [(b.start_offset, b)] := by
      simp only [groupLoop, commitBlock]
      exact dinsert_of_not_mem b hnot
    rw [hgl]
    constructor
    · simp
    · simp
  | cons instr tl ih =>
    intro blocks b hlt hrest hrinc
    have hbi : b.start_offset < instr.offset := hrest instr (by simp)
    have hrest' : ∀ i ∈ tl, b.start_offset < i.offset :=
      fun i hi => hrest i (List.mem_cons_of_mem _ hi)
    have hrinc2 : List.Pairwise (· < ·) (instr.offset :: tl.map Instr.offset) := by
      simpa using hrinc
    have hrinc' : (tl.map Instr.offset).Pairwise (· < ·) :=
      (List.pairwise_cons.1 hrinc2).2
    have hinstr_lt : ∀ i ∈ tl, instr.offset < i.offset := by
      intro i hi
      exact (List.pairwise_cons.1 hrinc2).1 i.offset (List.mem_map_of_mem _ hi)
    by_cases hs : instr.offset ∈ starts
    · have hnot : b.start_offset ∉ blocks.map Prod.fst := by
        intro hmem
        exact absurd rfl (Int.ne_of_lt (hlt _ hmem))
      have hgl : groupLoop starts (instr :: tl) blocks (some b)
          = groupLoop starts tl (blocks ++ [(b.start_offset, b)])
              (some ((BasicBlock.init instr.offset).add_instruction instr)) := by
        simp only [groupLoop, commitBlock, if_pos hs]
        rw [dinsert_of_not_mem b hnot]
      obtain ⟨hkeys, hjoin⟩ := ih (blocks ++ [(b.start_offset, b)])
        ((BasicBlock.init instr.offset).add_instruction instr)
        (by
          intro k hk
          simp only [List.map_append, List.mem_append] at hk
          rcases hk with hk | hk
          · exact lt_trans (hlt k hk)
              (by simpa [BasicBlock.add_instruction, BasicBlock.init] using hbi)
          · simp only [List.map_cons, List.map_nil, List.mem_singleton] at hk
            subst hk
            simpa [BasicBlock.add_instruction, BasicBlock.init] using hbi)
        (by
          intro i hi
          simpa [BasicBlock.add_instruction, BasicBlock.init] using
            hinstr_lt i hi)
        hrinc'
      rw [hgl]
      constructor
      · rw [hkeys]
        simp [BasicBlock.add_instruction, BasicBlock.init, hs]
      · rw [hjoin]
        simp [BasicBlock.add_instruction, BasicBlock.init]
    · have hgl : groupLoop starts (instr :: tl) blocks (some b)
          = groupLoop starts tl blocks (some (b.add_instruction instr)) := by
        simp only [groupLoop, if_neg hs]
      obtain ⟨hkeys, hjoin⟩ := ih blocks (b.add_instruction instr)
        (by
          intro k hk
          simpa [BasicBlock.add_instruction] using hlt k hk)
        (by
          intro i hi
          simpa [BasicBlock.add_instruction] using hrest' i hi)
        hrinc'
      rw [hgl]
      constructor
      · rw [hkeys]
        simp [BasicBlock.add_instruction, hs]
      · rw [hjoin]
        simp [BasicBlock.add_instruction]

/-- Keys of the final mapping, for a nonempty sequence with strictly
increasing offsets: the first instruction's offset followed by the offsets of
the later instructions that are block starts. -/
theorem extract_basic_blocks_keys (i0 : Instr) (rest : List Instr)
    (hinc : (((i0 :: rest).map Instr.offset).Pairwise (· < ·))) :
    (extract_basic_blocks (i0 :: rest)).map Prod.fst
      = i0.offset :: ((rest.filter (fun i =>
          decide (i.offset ∈ markStarts (i0 :: rest) [i0.offset]))).map
            Instr.offset) := by
  have hseed : i0.offset ∈ markStarts (i0 :: rest) [i0.offset] :=
    mem_markStarts_of_mem _ (by simp)
  have hrinc2 : List.Pairwise (· < ·) (i0.offset :: rest.map Instr.offset) := by
    simpa using hinc
  have hb0 : ((BasicBlock.init i0.offset).add_instruction i0).start_offset
      = i0.offset := rfl
  have hgl : groupLoop (markStarts (i0 :: rest) [i0.offset]) (i0 :: rest) [] none
      = groupLoop (markStarts (i0 :: rest) [i0.offset]) rest []
          (some ((BasicBlock.init i0.offset).add_instruction i0)) := by
    simp only [groupLoop, commitBlock, if_pos hseed]
  obtain ⟨hkeys, _⟩ := groupLoop_spec (markStarts (i0 :: rest) [i0.offset]) rest
    [] ((BasicBlock.init i0.offset).add_instruction i0)
    (by simp)
    (by
      intro i hi
      rw [hb0]
      exact (List.pairwise_cons.1 hrinc2).1 i.offset (List.mem_map_of_mem _ hi))
    ((List.pairwise_cons.1 hrinc2).2)
  unfold extract_basic_blocks
  simp only [List.map_map]
  have : ((groupLoop (markStarts (i0 :: rest) [i0.offset]) (i0 :: rest) []
      none).map ((fun p => Prod.fst p) ∘
        (fun p => (p.1, addEdges (sortInts ((groupLoop
          (markStarts (i0 :: rest) [i0.offset]) (i0 :: rest) [] none).map
            Prod.fst)) p.1 p.2))))
      = (groupLoop (markStarts (i0 :: rest) [i0.offset]) (i0 :: rest) []
          none).map Prod.fst := by
    rfl
  rw [this, hgl, hkeys, hb0]
  simp

/-- Instruction partition of the final mapping, for a nonempty sequence with
strictly increasing offsets: concatenating the blocks' instruction lists in
mapping order restores the input sequence. -/
theorem extract_basic_blocks_flatten (i0 : Instr) (rest : List Instr)
    (hinc : (((i0 :: rest).map Instr.offset).Pairwise (· < ·))) :
    ((extract_basic_blocks (i0 :: rest)).map
        (fun p => p.2.instructions)).flatten = i0 :: rest := by
  have hseed : i0.offset ∈ markStarts (i0 :: rest) [i0.offset] :=
    mem_markStarts_of_mem _ (by simp)
  have hrinc2 : List.Pairwise (· < ·) (i0.offset :: rest.map Instr.offset) := by
    simpa using hinc
  have hb0 : ((BasicBlock.init i0.offset).add_instruction i0).start_offset
      = i0.offset := rfl
  have hgl : groupLoop (markStarts (i0 :: rest) [i0.offset]) (i0 :: rest) [] none
      = groupLoop (markStarts (i0 :: rest) [i0.offset]) rest []
          (some ((BasicBlock.init i0.offset).add_instruction i0)) := by
    simp only [groupLoop, commitBlock, if_pos hseed]
  obtain ⟨_, hjoin⟩ := groupLoop_spec (markStarts (i0 :: rest) [i0.offset]) rest
    [] ((BasicBlock.init i0.offset).add_instruction i0)
    (by simp)
    (by
      intro i hi
      rw [hb0]
      exact (List.pairwise_cons.1 hrinc2).1 i.offset (List.mem_map_of_mem _ hi))
    ((List.pairwise_cons.1 hrinc2).2)
  unfold extract_basic_blocks
  simp only [List.map_map]
  have hmapeq : ((groupLoop (markStarts (i0 :: rest) [i0.offset]) (i0 :: rest)
      [] none).map ((fun p => p.2.instructions) ∘
        (fun p => (p.1, addEdges (sortInts ((groupLoop
          (markStarts (i0 :: rest) [i0.offset]) (i0 :: rest) [] none).map
            Prod.fst)) p.1 p.2))))
      = (groupLoop (markStarts (i0 :: rest) [i0.offset]) (i0 :: rest) []
          none).map (fun p => p.2.instructions) := by
    simp [Function.comp, addEdges_instructions]
  rw [hmapeq, hgl, hjoin]
  simp [BasicBlock.add_instruction, BasicBlock.init]

/-- Claim C6: for a sequence with strictly increasing offsets (the decoder's
contract), the block mapping is keyed in strictly increasing start-offset
order and concatenating the blocks' instruction lists in that order yields
exactly the input sequence; the empty sequence yields the empty mapping. -/
theorem extract_basic_blocks_partition (instrs : List Instr)
    (hinc : ((instrs.map Instr.offset).Pairwise (· < ·))) :
    ((extract_basic_blocks instrs).map Prod.fst).Pairwise (· < ·) ∧
      ((extract_basic_blocks instrs).map
          (fun p => p.2.instructions)).flatten = instrs ∧
      (instrs = [] → extract_basic_blocks instrs = []) := by
  match instrs with
  | [] => exact ⟨by simp [extract_basic_blocks], by simp [extract_basic_blocks],
      fun _ => rfl⟩
  | i0 :: rest =>
    refine ⟨?_, extract_basic_blocks_flatten i0 rest hinc, by simp⟩
    rw [extract_basic_blocks_keys i0 rest hinc]
    have hsub : (i0 :: rest.filter (fun i =>
        decide (i.offset ∈ markStarts (i0 :: rest) [i0.offset]))).Sublist
          (i0 :: rest) :=
      List.Sublist.cons₂ _ (List.filter_sublist _)
    have : ((i0 :: rest.filter (fun i =>
        decide (i.offset ∈ markStarts (i0 :: rest) [i0.offset]))).map
          Instr.offset).Sublist ((i0 :: rest).map Instr.offset) :=
      hsub.map _
    have hpw := hinc.sublist this
    simpa using hpw

/-- Witness for C6 at the concrete if-shaped program. -/
theorem extract_basic_blocks_partition_witness :
    ((extract_basic_blocks exProg).map Prod.fst).Pairwise (· < ·) ∧
      ((extract_basic_blocks exProg).map
          (fun p => p.2.instructions)).flatten = exProg ∧
      (exProg = [] → extract_basic_blocks exProg = []) :=
  extract_basic_blocks_partition exProg (by decide)

/-! ### Claims C5 and C2: graph closure and dangling targets -/

theorem mem_insSorted {x y : Int} : ∀ {l : List Int},
    x ∈ insSorted y l → x = y ∨ x ∈ l := by
  intro l
  induction l with
  | nil => intro h; simp [insSorted] at h; exact Or.inl h
  | cons z zs ih =>
    intro h
    unfold insSorted at h
    split at h
    · rcases List.mem_cons.1 h with h | h
      · exact Or.inl h
      · exact Or.inr h
    · rcases List.mem_cons.1 h with h | h
      · exact Or.inr (by simp [h])
      · rcases ih h with h | h
        · exact Or.inl h
        · exact Or.inr (List.mem_cons_of_mem _ h)

theorem mem_sortInts {x : Int} : ∀ {l : List Int}, x ∈ sortInts l → x ∈ l := by
  intro l
  induction l with
  | nil => intro h; simp [sortInts] at h
  | cons z zs ih =>
    intro h
    unfold sortInts at h ih
    rcases mem_insSorted h with h | h
    · simp [h]
    · exact List.mem_cons_of_mem _ (ih h)

theorem mem_add_successor {b : BasicBlock} {o s : Int} {c : Bool}
    (h : s ∈ (b.add_successor o c).successors) : s ∈ b.successors ∨ s = o := by
  unfold BasicBlock.add_successor at h
  split at h
  · exact Or.inl h
  · simp only [List.mem_append, List.mem_singleton] at h
    exact h

/-- Where a successor attached by `addEdges` can come from, for a block with
no prior successors: either it is the integer jump target of the block's last
(jump) instruction, or it is an element of the sorted key list. -/
theorem addEdges_succ_sub (ks : List Int) (off : Int) (b : BasicBlock)
    (h : freshSucc b) (s : Int)
    (hs : s ∈ (addEdges ks off b).successors) :
    (∃ last, b.instructions.getLast? = some last ∧
      last.opname ∈ JUMP_OPCODES ∧ last.argval = some (ArgVal.int s)) ∨
    s ∈ ks := by
  unfold freshSucc at h
  cases hl : b.instructions.getLast? with
  | none =>
    simp only [addEdges, hl] at hs
    rw [h] at hs
    cases hs
  | some last =>
    simp only [addEdges, hl] at hs
    by_cases hj : last.opname ∈ JUMP_OPCODES
    · rw [if_pos hj] at hs
      have htarget : ∀ u, u ∈ (targetEdge last b).successors →
          ∃ t, last.argval = some (ArgVal.int t) ∧ u = t := by
        intro u hu
        unfold targetEdge at hu
        split at hu
        · rename_i t heq
          rcases mem_add_successor hu with h2 | h2
          · rw [h] at h2; cases h2
          · exact ⟨t, heq, h2⟩
        · rw [h] at hu; cases hu
      unfold jumpFallThrough at hs
      split at hs
      · split at hs
        · rename_i nxt hnxt
          rcases mem_add_successor hs with h2 | h2
          · obtain ⟨t, heq, rfl⟩ := htarget s h2
            exact Or.inl ⟨last, rfl, hj, heq⟩
          · exact Or.inr (h2 ▸ List.mem_of_find?_eq_some hnxt)
        · obtain ⟨t, heq, rfl⟩ := htarget s hs
          exact Or.inl ⟨last, rfl, hj, heq⟩
      · obtain ⟨t, heq, rfl⟩ := htarget s hs
        exact Or.inl ⟨last, rfl, hj, heq⟩
    · rw [if_neg hj] at hs
      split at hs
      · rw [h] at hs; cases hs
      · unfold seqFallThrough at hs
        split at hs
        · rename_i nxt hnxt
          rcases mem_add_successor hs with h2 | h2
          · rw [h] at h2; cases h2
          · exact Or.inr (h2 ▸ List.mem_of_find?_eq_some hnxt)
        · rw [h] at hs; cases hs

theorem extract_keys_eq_phase2 (i0 : Instr) (rest : List Instr) :
    (extract_basic_blocks (i0 :: rest)).map Prod.fst
      = (groupLoop (markStarts (i0 :: rest) [i0.offset]) (i0 :: rest) []
          none).map Prod.fst := by
  unfold extract_basic_blocks
  simp only [List.map_map]
  rfl

/-- A block start that is also the offset of some instruction is a key of the
final mapping. -/
theorem mem_keys_of_start (i0 : Instr) (rest : List Instr)
    (hinc : (((i0 :: rest).map Instr.offset).Pairwise (· < ·))) (t : Int)
    (hstart : t ∈ markStarts (i0 :: rest) [i0.offset])
    (hoff : t ∈ (i0 :: rest).map Instr.offset) :
    t ∈ (extract_basic_blocks (i0 :: rest)).map Prod.fst := by
  rw [extract_basic_blocks_keys i0 rest hinc]
  simp only [List.map_cons, List.mem_cons] at hoff
  rcases hoff with h | h
  · simp [h]
  · obtain ⟨i, hi, rfl⟩ := List.mem_map.1 h
    refine List.mem_cons_of_mem _ (List.mem_map_of_mem _ ?_)
    exact List.mem_filter.2 ⟨hi, by simpa using hstart⟩

theorem mem_of_getLast?_eq_some {l : List Instr} {a : Instr}
    (h : l.getLast? = some a) : a ∈ l := by
  obtain ⟨hne, heq⟩ := List.mem_getLast?_eq_getLast
    (show a ∈ l.getLast? from by rw [h]; rfl)
  rw [heq]
  exact List.getLast_mem hne

/-- Claim C5: under the decoder contract (strictly increasing offsets) and the
precondition that every jump instruction's integer target is the offset of
some instruction in the sequence, every successor offset of every block is a
key of the returned mapping (no dangling edges). -/
theorem extract_basic_blocks_closure (instrs : List Instr)
    (hinc : ((instrs.map Instr.offset).Pairwise (· < ·)))
    (hclosed : ∀ i ∈ instrs, i.opname ∈ JUMP_OPCODES →
      ∀ t, i.argval = some (ArgVal.int t) → t ∈ instrs.map Instr.offset) :
    ∀ off b, (off, b) ∈ extract_basic_blocks instrs →
      ∀ s ∈ b.successors, s ∈ (extract_basic_blocks instrs).map Prod.fst := by
  match instrs with
  | [] => intro off b hmem; simp [extract_basic_blocks] at hmem
  | i0 :: rest =>
    intro off b hmem s hs
    have hmem' := hmem
    unfold extract_basic_blocks at hmem'
    simp only [List.mem_map] at hmem'
    obtain ⟨p, hp, he⟩ := hmem'
    have hfresh : freshSucc p.2 :=
      groupLoop_freshSucc _ _ [] none (by simp) (by simp) p hp
    have hb : b = addEdges
        (sortInts ((groupLoop (markStarts (i0 :: rest) [i0.offset])
          (i0 :: rest) [] none).map Prod.fst)) p.1 p.2 :=
      congrArg Prod.snd he.symm
    rcases addEdges_succ_sub _ p.1 p.2 hfresh s (hb ▸ hs) with
      ⟨last, hlast, hj, hav⟩ | hks
    · have hlast_mem_b : last ∈ b.instructions := by
        rw [hb, addEdges_instructions]
        exact mem_of_getLast?_eq_some hlast
      have hlast_mem : last ∈ i0 :: rest := by
        have h1 : b.instructions ∈ (extract_basic_blocks (i0 :: rest)).map
            (fun p => p.2.instructions) := by
          exact List.mem_map_of_mem _ hmem
        have h2 := extract_basic_blocks_flatten i0 rest hinc
        rw [← h2]
        exact List.mem_flatten.2 ⟨b.instructions, h1, hlast_mem_b⟩
      have hoff := hclosed last hlast_mem hj s hav
      have hstart : s ∈ markStarts (i0 :: rest) [i0.offset] :=
        markStarts_target _ _ last s hlast_mem hj hav
      exact mem_keys_of_start i0 rest hinc s hstart hoff
    · rw [extract_keys_eq_phase2]
      exact mem_sortInts hks

/-- Witness for C5 at the concrete if-shaped program: the conditional
successor 8 of the entry block is a key of the mapping. -/
theorem extract_basic_blocks_closure_witness :
    (8 : Int) ∈ (extract_basic_blocks exProg).map Prod.fst :=
  extract_basic_blocks_closure exProg (by decide)
    (by intro i hi hj t hav; fin_cases hi <;> simp_all [JUMP_OPCODES, exProg])
    0 exBlock0 (by decide) 8 (by decide)

/-- A one-instruction program whose jump target (offset 10) matches no
instruction offset. -/
def danglingProg : List Instr :=
  [⟨0, "JUMP_FORWARD", 110, some 10, some (ArgVal.int 10), "to 10"⟩]

/-- Counterexample for C2: on a branch whose resolved target matches no
instruction offset, `extract_basic_blocks` does not abort; it returns a
mapping in which the unresolved target 10 sits in the block's successors list
while not being a key — the edge is left dangling, with no error raised. -/
theorem extract_basic_blocks_dangling_counterexample :
    extract_basic_blocks danglingProg
        = [(0, ⟨0, 0, danglingProg, [10], [(10, false)]⟩)] ∧
      (10 : Int) ∉ (extract_basic_blocks danglingProg).map Prod.fst := by
  decide

/-- Amended C2: for a sequence with strictly increasing offsets containing a
jump whose integer target is no instruction's offset, the analysis completes
normally and the target is simply absent from the returned mapping's keys
(every key is an instruction offset), so any recorded edge toward it
dangles. -/
theorem extract_basic_blocks_dangling_no_abort (instrs : List Instr)
    (hinc : ((instrs.map Instr.offset).Pairwise (· < ·)))
    (i : Instr) (t : Int) (hi : i ∈ instrs) (_hj : i.opname ∈ JUMP_OPCODES)
    (_hav : i.argval = some (ArgVal.int t))
    (hnot : t ∉ instrs.map Instr.offset) :
    t ∉ (extract_basic_blocks instrs).map Prod.fst := by
  match instrs with
  | [] => cases hi
  | i0 :: rest =>
    rw [extract_basic_blocks_keys i0 rest hinc]
    intro hmem
    rcases List.mem_cons.1 hmem with h | h
    · exact hnot (by simp [h])
    · obtain ⟨j, hjmem, rfl⟩ := List.mem_map.1 h
      exact hnot (List.mem_map_of_mem _
        (List.mem_cons_of_mem _ (List.mem_filter.1 hjmem).1))

/-- Witness for the amended C2 at the concrete dangling program. -/
theorem extract_basic_blocks_dangling_no_abort_witness :
    (10 : Int) ∉ (extract_basic_blocks danglingProg).map Prod.fst :=
  extract_basic_blocks_dangling_no_abort danglingProg (by decide)
    ⟨0, "JUMP_FORWARD", 110, some 10, some (ArgVal.int 10), "to 10"⟩ 10
    (by decide) (by decide) (by decide) (by decide)

/-! ### Claim C3: conditional edge labels -/

/-- Counterexample for C3: the code labels the taken edge of an `IF_FALSE`
branch "False" (not "true"), labels the `FOR_ITER` fall-through "next" (not
"exhausted"), and uses the generic pair "jump"/"fall" (not
"branch"/"fall-through") for conditional jumps whose name encodes no
polarity. -/
theorem edgeLabel_polarity_counterexample :
    edgeLabel ⟨4, "POP_JUMP_IF_FALSE", 114, some 20, some (ArgVal.int 20), ""⟩
        20 = "False" ∧
      edgeLabel ⟨10, "FOR_ITER", 93, some 24, some (ArgVal.int 24), ""⟩ 12
        = "next" ∧
      edgeLabel ⟨10, "JUMP_IF_NOT_EXC_MATCH", 121, some 24,
          some (ArgVal.int 24), ""⟩ 24 = "jump" ∧
      ("False" ≠ "True" ∧ "next" ≠ "exhausted" ∧ "jump" ≠ "branch") := by
  decide

/-- Amended C3: the actual label table of `visualize_cfg`.  With `t` the
resolved integer jump target: opcodes containing "IF_TRUE" label the taken
edge "True" and the fall-through "False"; opcodes containing "IF_FALSE" label
the taken edge "False" and the fall-through "True"; `FOR_ITER` labels them
"iter"/"next"; every other opcode gets the generic pair "jump"/"fall". -/
theorem edgeLabel_polarity_table (last : Instr) (t : Int)
    (hav : last.argval = some (ArgVal.int t)) :
    (strContains last.opname "IF_TRUE" = true →
      edgeLabel last t = "True" ∧ ∀ s, s ≠ t → edgeLabel last s = "False") ∧
    (strContains last.opname "IF_TRUE" = false →
      strContains last.opname "IF_FALSE" = true →
      edgeLabel last t = "False" ∧ ∀ s, s ≠ t → edgeLabel last s = "True") ∧
    (strContains last.opname "IF_TRUE" = false →
      strContains last.opname "IF_FALSE" = false →
      last.opname = "FOR_ITER" →
      edgeLabel last t = "iter" ∧ ∀ s, s ≠ t → edgeLabel last s = "next") ∧
    (strContains last.opname "IF_TRUE" = false →
      strContains last.opname "IF_FALSE" = false →
      last.opname ≠ "FOR_ITER" →
      edgeLabel last t = "jump" ∧ ∀ s, s ≠ t → edgeLabel last s = "fall") := by
  refine ⟨?_, ?_, ?_, ?_⟩
  · intro h1
    refine ⟨by simp [edgeLabel, argvalIntEq, hav, h1], fun s hs => ?_⟩
    simp [edgeLabel, argvalIntEq, hav, h1, hs]
  · intro h1 h2
    refine ⟨by simp [edgeLabel, argvalIntEq, hav, h1, h2], fun s hs => ?_⟩
    simp [edgeLabel, argvalIntEq, hav, h1, h2, hs]
  · intro h1 h2 h3
    have e1 : strContains "FOR_ITER" "IF_TRUE" = false := by decide
    have e2 : strContains "FOR_ITER" "IF_FALSE" = false := by decide
    refine ⟨by simp [edgeLabel, argvalIntEq, hav, h3, e1, e2], fun s hs => ?_⟩
    simp [edgeLabel, argvalIntEq, hav, h3, e1, e2, hs]
  · intro h1 h2 h3
    refine ⟨by simp [edgeLabel, argvalIntEq, hav, h1, h2, h3], fun s hs => ?_⟩
    simp [edgeLabel, argvalIntEq, hav, h1, h2, h3, hs]

/-- Witness for the amended C3 at a concrete `POP_JUMP_IF_TRUE` branch. -/
theorem edgeLabel_polarity_table_witness :
    edgeLabel ⟨2, "POP_JUMP_IF_TRUE", 115, some 30, some (ArgVal.int 30), ""⟩
        30 = "True" ∧
      edgeLabel ⟨2, "POP_JUMP_IF_TRUE", 115, some 30, some (ArgVal.int 30), ""⟩
        4 = "False" := by
  have h := edgeLabel_polarity_table
    ⟨2, "POP_JUMP_IF_TRUE", 115, some 30, some (ArgVal.int 30), ""⟩ 30 rfl
  exact ⟨(h.1 (by decide)).1, (h.1 (by decide)).2 4 (by decide)⟩

/-! ### The symbolic stack simulator (`bytecode_tracer.py`) -/

/-- Symbolic or host values on the simulated operand stack.  Host floating
point is idealised as exact rationals (`float`); arithmetic whose host result
is not an exact rational (such as `**` with a fractional exponent) lies
outside the model's numeric domain and is excluded by the `exactDomain`
hypothesis of `simulate_binary_arith_fold`. -/
inductive Value where
  | int (n : Int)
  | bool (b : Bool)
  | float (q : ℚ)
  | str (s : String)
  | none
  | list (xs : List Value)
  | tuple (xs : List Value)
  | dict (xs : List (Value × Value))

mutual

/-- Python `repr` (floats idealised; plain strings quoted without escape
processing). -/
def pyRepr : Value → String
  | .int n => toString n
  | .bool b => if b then "True" else "False"
  | .float q => toString q
  | .str s => "'" ++ s ++ "'"
  | .none => "None"
  | .list xs => "[" ++ String.intercalate ", " (pyReprList xs) ++ "]"
  | .tuple [x] => "(" ++ pyRepr x ++ ",)"
  | .tuple xs => "(" ++ String.intercalate ", " (pyReprList xs) ++ ")"
  | .dict xs => "\x7b" ++ String.intercalate ", " (pyReprPairs xs) ++ "\x7d"

/-- `repr` of each element of a list. -/
def pyReprList : List Value → List String
  | [] => []
  | v :: vs => pyRepr v :: pyReprList vs

/-- Rendered `key: value` pairs of a dict. -/
def pyReprPairs : List (Value × Value) → List String
  | [] => []
  | p :: ps => (pyRepr p.1 ++ ": " ++ pyRepr p.2) :: pyReprPairs ps

end

/-- Python `str`: identity on strings, `repr` otherwise (how the tracer's
f-strings render values). -/
def pyStr : Value → String
  | .str s => s
  | v => pyRepr v

mutual

/-- Structural value equality, used only for `BUILD_MAP` dictionary keys. -/
def Value.beq : Value → Value → Bool
  | .int a, .int b => a == b
  | .bool a, .bool b => a == b
  | .float a, .float b => a == b
  | .str a, .str b => a == b
  | .none, .none => true
  | .list a, .list b => beqValueList a b
  | .tuple a, .tuple b => beqValueList a b
  | .dict a, .dict b => beqValuePairs a b
  | _, _ => false

/-- Pointwise structural equality of value lists. -/
def beqValueList : List Value → List Value → Bool
  | [], [] => true
  | x :: xs, y :: ys => Value.beq x y && beqValueList xs ys
  | _, _ => false

/-- Pointwise structural equality of value-pair lists. -/
def beqValuePairs : List (Value × Value) → List (Value × Value) → Bool
  | [], [] => true
  | x :: xs, y :: ys => (Value.beq x.1 y.1 && Value.beq x.2 y.2) && beqValuePairs xs ys
  | _, _ => false

end


/-- Host exceptions the simulator's operations can raise: a stack underflow
(popping an empty list) or any other IndexError (an out-of-range table or
negative index). -/
inductive SimError where
  | underflow
  | indexError
deriving DecidableEq

/-- Python `list.pop()` on the operand stack (top at the END of the list); an
IndexError on an empty stack is a stack underflow. -/
def pyPop (s : List Value) : Except SimError (Value × List Value) :=
  match s.getLast? with
  | some v => .ok (v, s.dropLast)
  | Option.none => .error SimError.underflow

/-- Python negative indexing `s[-n]` (valid for 1 ≤ n ≤ len, IndexError
otherwise -- never an underflow). -/
def pyIndexNeg (s : List Value) (n : Nat) : Except SimError Value :=
  if h : 1 ≤ n ∧ n ≤ s.length then
    .ok (s.get ⟨s.length - n, by omega⟩)
  else .error SimError.indexError

/-- Write at negative index: `s[-n] := v`. -/
def pySetNeg (s : List Value) (n : Nat) (v : Value) : List Value :=
  s.set (s.length - n) v

/-- `isinstance(x, (int, float))` with the numeric content: Python `bool` is a
subtype of `int` and participates in arithmetic as 0/1. -/
def numVal : Value → Option (Int ⊕ ℚ)
  | .int n => some (Sum.inl n)
  | .bool b => some (Sum.inl (if b then 1 else 0))
  | .float q => some (Sum.inr q)
  | _ => Option.none

def toQ : Int ⊕ ℚ → ℚ
  | Sum.inl n => (n : ℚ)
  | Sum.inr q => q

/-- Host arithmetic for the seven folded operators.  Within the `exactDomain`
restriction used by `simulate_binary_arith_fold`, `none` is exactly the cases
in which the host raises (division/modulo by zero, `0 ** negative`) and
`some` the cases in which it pushes a number.  Outside that domain the host's
control flow can differ from this function (a fractional `**` exponent makes
the host push an irrational float, or a complex number for a negative base,
instead of raising; float `**` can raise OverflowError; a beyond-double-range
integer can raise OverflowError at its implicit float conversion), so the
theorem excludes those inputs by hypothesis.  Integer arithmetic is exact:
`+ - *` close over the integers, `/` produces a (rationally idealised) float,
`//` is floor division and `%` the floor-convention remainder, `**` with a
non-negative exponent is an integer power. -/
def pyArith (x y : Int ⊕ ℚ) (op : String) : Option Value :=
  match x, y with
  | Sum.inl a, Sum.inl b =>
    if op = "+" then some (.int (a + b))
    else if op = "-" then some (.int (a - b))
    else if op = "*" then some (.int (a * b))
    else if op = "/" then
      (if b = 0 then Option.none else some (.float ((a : ℚ) / (b : ℚ))))
    else if op = "//" then
      (if b = 0 then Option.none else some (.int (Int.fdiv a b)))
    else if op = "%" then
      (if b = 0 then Option.none else some (.int (Int.fmod a b)))
    else if op = "**" then
      (if 0 ≤ b then some (.int (a ^ b.toNat))
       else if a = 0 then Option.none else some (.float ((a : ℚ) ^ b)))
    else Option.none
  | x1, y1 =>
    let a := toQ x1
    let b := toQ y1
    if op = "+" then some (.float (a + b))
    else if op = "-" then some (.float (a - b))
    else if op = "*" then some (.float (a * b))
    else if op = "/" then
      (if b = 0 then Option.none else some (.float (a / b)))
    else if op = "//" then
      (if b = 0 then Option.none else some (.float ((⌊a / b⌋ : ℤ) : ℚ)))
    else if op = "%" then
      (if b = 0 then Option.none
       else some (.float (a - b * ((⌊a / b⌋ : ℤ) : ℚ))))
    else if op = "**" then
      (if b.den = 1 then
        (if a = 0 ∧ b.num < 0 then Option.none
         else some (.float (a ^ b.num)))
       else Option.none)
    else Option.none

/-- The display text `f"({left} {op} {right})"`. -/
def binDisplay (l : Value) (op : String) (r : Value) : String :=
  "(" ++ pyStr l ++ " " ++ op ++ " " ++ pyStr r ++ ")"

/-- The `BINARY_OP` try/except block: fold when both operands are numeric and
the operator is one of the seven listed ones, falling back to the display
text when the host arithmetic raises; display text in every other case. -/
def binResult (l : Value) (op : String) (r : Value) : Value :=
  match numVal l, numVal r with
  | some x, some y =>
    if op ∈ ["+", "-", "*", "/", "//", "%", "**"] then
      match pyArith x y op with
      | some v => v
      | Option.none => .str (binDisplay l op r)
    else .str (binDisplay l op r)
  | _, _ => .str (binDisplay l op r)

/-- One recorded simulation step (`ExecutionStep` dataclass). -/
structure ExecutionStep where
  offset : Int
  opcode : String
  arg : String
  stack_before : List Value
  stack_after : List Value
  locals_snapshot : List (String × Value)

/-- The simulator's mutable state: operand stack and local bindings. -/
structure SimState where
  stack : List Value
  locals : List (String × Value)

/-- Python `s.split(",")` with `.strip()` applied to each part. -/
def splitCommaStrip (s : String) : List String :=
  (s.splitOn ",").map String.trim

/-- Python `s.split()`: split on whitespace runs, dropping empty parts. -/
def splitWs (s : String) : List String :=
  (s.split Char.isWhitespace).filter (fun u => u ≠ "")

/-- Emptiness of a `Value` stack is decidable without value equality (the
`if self.stack:` guards need only this). -/
instance decValueStackNil (s : List Value) : Decidable (s = []) :=
  match s with
  | [] => isTrue rfl
  | _ :: _ => isFalse (fun h => List.noConfusion h)

/-- The argument-popping loop of CALL / BUILD_LIST / BUILD_TUPLE:
`for _ in range(n): if stack: items.insert(0, stack.pop())`. -/
def popArgsLoop : Nat → List Value → List Value →
    Except SimError (List Value × List Value)
  | 0, s, acc => .ok (s, acc)
  | n + 1, s, acc =>
    if s ≠ [] then do
      let (v, s1) ← pyPop s
      popArgsLoop n s1 (v :: acc)
    else popArgsLoop n s acc

/-- The `STORE_FAST_STORE_FAST` loop over `reversed(var_names)`:
`if stack: locals[name] = stack.pop()`. -/
def storeNamesLoop : List String → List Value → List (String × Value) →
    Except SimError (List Value × List (String × Value))
  | [], s, loc => .ok (s, loc)
  | name :: names, s, loc =>
    if s ≠ [] then do
      let (v, s1) ← pyPop s
      storeNamesLoop names s1 (dinsert loc name v)
    else storeNamesLoop names s loc

/-- Python dict assignment for `BUILD_MAP`, keyed by structural value
equality.  Host `__eq__` numeric coercion between key types (`1 == 1.0 ==
True`) and the TypeError an unhashable key raises are not modelled; the only
claims this underlies concern stack depth, which both corners leave
unchanged. -/
def dinsertValue (d : List (Value × Value)) (k v : Value) :
    List (Value × Value) :=
  if d.any (fun p => Value.beq p.1 k) then
    d.map (fun p => if Value.beq p.1 k then (k, v) else p)
  else d ++ [(k, v)]

/-- The `BUILD_MAP` loop:
`if len(stack) >= 2: val = pop; key = pop; d[key] = val`. -/
def buildMapLoop : Nat → List Value → List (Value × Value) →
    Except SimError (List Value × List (Value × Value))
  | 0, s, d => .ok (s, d)
  | n + 1, s, d =>
    if 2 ≤ s.length then do
      let (v, s1) ← pyPop s
      let (k, s2) ← pyPop s1
      buildMapLoop n s2 (dinsertValue d k v)
    else buildMapLoop n s d

/-- The unknown-opcode fallback pop loop: `if stack: stack.pop()`. -/
def popNLoop : Nat → List Value → Except SimError (List Value)
  | 0, s => .ok s
  | n + 1, s =>
    if s ≠ [] then do
      let (_, s1) ← pyPop s
      popNLoop n s1
    else popNLoop n s

/-- The current binding of a local, or the placeholder `<name>`
(`self.locals.get(var_name, f"<\x7bvar_name\x7d>")`). -/
def localOrTag (loc : List (String × Value)) (name : String) : Value :=
  (dlookup loc name).getD (.str ("<" ++ name ++ ">"))

/-- The `LOAD_FAST_LOAD_FAST` push loop over parsed variable names. -/
def pushNamesLoop (loc : List (String × Value)) :
    List String → List Value → List Value
  | [], s => s
  | name :: names, s => pushNamesLoop loc names (s ++ [localOrTag loc name])

/-- The `LOAD_FAST_LOAD_FAST` push loop over the two packed indices:
`if idx < len(varnames): push`. -/
def pushIdxLoop (varnames : List String) (loc : List (String × Value)) :
    List Nat → List Value → List Value
  | [], s => s
  | idx :: rest, s =>
    match varnames.get? idx with
    | some name => pushIdxLoop varnames loc rest (s ++ [localOrTag loc name])
    | Option.none => pushIdxLoop varnames loc rest s

/-- The receiver-marker check of `CALL`:
`if self.stack and self.stack[-1] is None: self.stack.pop()`. -/
def callNullPop (s1 : List Value) : Except SimError (List Value) :=
  match s1.getLast? with
  | some Value.none => do
      let (_, s2) ← pyPop s1
      pure s2
  | _ => pure s1

/-- Stack/locals effect of one instruction: the opcode dispatch chain of
`StackSimulator.simulate_instruction`.  `consts` and `varnames` are the code
object's tables; `se` is the external `dis.stack_effect` lookup for opcodes
not explicitly modelled (`none` = the lookup raises). -/
def stepStack (consts : List Value) (varnames : List String)
    (se : Nat → Nat → Option Int) (inst : Instr) (st : SimState) :
    Except SimError SimState :=
  let stack := st.stack
  let locals := st.locals
  if inst.opname = "RESUME" then
    .ok st
  else if inst.opname = "LOAD_CONST" then
    match inst.arg with
    | some i =>
      match consts.get? i with
      | some c => .ok { st with stack := stack ++ [c] }
      | Option.none => .error SimError.indexError
    | Option.none => .ok { st with stack := stack ++ [Value.none] }
  else if inst.opname = "LOAD_FAST" then
    match inst.arg with
    | some i =>
      match varnames.get? i with
      | some name => .ok { st with stack := stack ++ [localOrTag locals name] }
      | Option.none => .ok st
    | Option.none => .ok st
  else if inst.opname = "LOAD_FAST_LOAD_FAST" then
    if inst.argrepr ≠ "" then
      .ok { st with stack := pushNamesLoop locals (splitCommaStrip inst.argrepr) stack }
    else
      match inst.arg with
      | some a =>
        .ok { st with stack := pushIdxLoop varnames locals [a &&& 15, (a >>> 4) &&& 15] stack }
      | Option.none => .ok st
  else if inst.opname = "LOAD_GLOBAL" then
    let name := if inst.argrepr ≠ "" then (splitWs inst.argrepr).head? else
      some "global"
    match name with
    | some n =>
      let s1 := stack ++ [Value.str ("<" ++ n ++ ">")]
      .ok { st with stack := (if strContains inst.argrepr "+ NULL" then s1 ++ [Value.none] else s1) }
    | Option.none => .error SimError.indexError
  else if inst.opname = "STORE_FAST" then
    match inst.arg with
    | some i =>
      match varnames.get? i with
      | some name =>
        if stack ≠ [] then do
          let (v, s1) ← pyPop stack
          .ok { stack := s1, locals := dinsert locals name v }
        else .ok st
      | Option.none => .ok st
    | Option.none => .ok st
  else if inst.opname = "STORE_FAST_STORE_FAST" then
    if inst.argrepr ≠ "" then do
      let (s1, loc1) ←
        storeNamesLoop (splitCommaStrip inst.argrepr).reverse stack locals
      .ok { stack := s1, locals := loc1 }
    else .ok st
  else if inst.opname = "BINARY_OP" then
    if 2 ≤ stack.length then do
      let (r, s1) ← pyPop stack
      let (l, s2) ← pyPop s1
      let opSym := if inst.argrepr ≠ "" then inst.argrepr else "op"
      .ok { st with stack := s2 ++ [binResult l opSym r] }
    else .ok st
  else if inst.opname = "UNARY_NEGATIVE" then
    if stack ≠ [] then do
      let (v, s1) ← pyPop stack
      match numVal v with
      | some (Sum.inl n) => .ok { st with stack := s1 ++ [Value.int (-n)] }
      | some (Sum.inr q) => .ok { st with stack := s1 ++ [Value.float (-q)] }
      | Option.none =>
        .ok { st with stack := s1 ++ [Value.str ("(-" ++ pyStr v ++ ")")] }
    else .ok st
  else if inst.opname = "UNARY_NOT" then
    if stack ≠ [] then do
      let (v, s1) ← pyPop stack
      .ok { st with stack := s1 ++ [Value.str ("(not " ++ pyStr v ++ ")")] }
    else .ok st
  else if inst.opname ∈ ["COMPARE_OP", "CONTAINS_OP", "IS_OP"] then
    if 2 ≤ stack.length then do
      let (r, s1) ← pyPop stack
      let (l, s2) ← pyPop s1
      let opStr := if inst.argrepr ≠ "" then inst.argrepr else "cmp"
      .ok { st with stack := s2 ++ [Value.str (binDisplay l opStr r)] }
    else .ok st
  else if inst.opname = "CALL" then do
    let (s1, args) ← popArgsLoop (inst.arg.getD 0) stack []
    let s2 ← callNullPop s1
    if s2 ≠ [] then do
      let (f, s3) ← pyPop s2
      .ok { st with stack := s3 ++ [Value.str (pyStr f ++ "(" ++ String.intercalate ", " (args.map pyStr) ++ ")")] }
    else .ok { st with stack := s2 }
  else if inst.opname = "CALL_FUNCTION" then do
    let (s1, args) ← popArgsLoop (inst.arg.getD 0) stack []
    if s1 ≠ [] then do
      let (f, s2) ← pyPop s1
      .ok { st with stack := s2 ++ [Value.str (pyStr f ++ "(" ++ String.intercalate ", " (args.map pyStr) ++ ")")] }
    else .ok { st with stack := s1 }
  else if inst.opname = "RETURN_VALUE" then
    if stack ≠ [] then do
      let (_, s1) ← pyPop stack
      .ok { st with stack := s1 }
    else .ok st
  else if inst.opname = "RETURN_CONST" then
    .ok st
  else if inst.opname = "POP_TOP" then
    if stack ≠ [] then do
      let (_, s1) ← pyPop stack
      .ok { st with stack := s1 }
    else .ok st
  else if inst.opname = "DUP_TOP" then
    if stack ≠ [] then do
      let v ← pyIndexNeg stack 1
      .ok { st with stack := stack ++ [v] }
    else .ok st
  else if inst.opname = "BUILD_LIST" then do
    let (s1, items) ← popArgsLoop (inst.arg.getD 0) stack []
    .ok { st with stack := s1 ++ [Value.list items] }
  else if inst.opname = "BUILD_TUPLE" then do
    let (s1, items) ← popArgsLoop (inst.arg.getD 0) stack []
    .ok { st with stack := s1 ++ [Value.tuple items] }
  else if inst.opname = "BUILD_MAP" then do
    let (s1, d) ← buildMapLoop (inst.arg.getD 0) stack []
    .ok { st with stack := s1 ++ [Value.dict d] }
  else if inst.opname ∈ ["JUMP_FORWARD", "JUMP_BACKWARD", "JUMP_IF_TRUE_OR_POP",
      "JUMP_IF_FALSE_OR_POP", "POP_JUMP_IF_TRUE", "POP_JUMP_IF_FALSE",
      "POP_JUMP_IF_NONE", "POP_JUMP_IF_NOT_NONE"] then
    if strContains inst.opname "POP_JUMP" = true ∧ stack ≠ [] then do
      let (_, s1) ← pyPop stack
      .ok { st with stack := s1 }
    else .ok st
  else if inst.opname = "GET_ITER" then
    if stack ≠ [] then do
      let (v, s1) ← pyPop stack
      .ok { st with stack := s1 ++ [Value.str ("iter(" ++ pyStr v ++ ")")] }
    else .ok st
  else if inst.opname = "FOR_ITER" then
    .ok { st with stack := stack ++ [Value.str "<next_item>"] }
  else if inst.opname = "PUSH_NULL" then
    .ok { st with stack := stack ++ [Value.none] }
  else if inst.opname = "COPY" then
    let n := match inst.arg with
      | some a => if a = 0 then 1 else a
      | Option.none => 1
    if n ≤ stack.length then do
      let v ← pyIndexNeg stack n
      .ok { st with stack := stack ++ [v] }
    else .ok st
  else if inst.opname = "SWAP" then
    let n := match inst.arg with
      | some a => if a = 0 then 2 else a
      | Option.none => 2
    if n ≤ stack.length then do
      let v1 ← pyIndexNeg stack 1
      let vn ← pyIndexNeg stack n
      .ok { st with stack := pySetNeg (pySetNeg stack 1 vn) n v1 }
    else .ok st
  else
    match se inst.opcode (inst.arg.getD 0) with
    | some effect =>
      if effect < 0 then do
        let s1 ← popNLoop (-effect).toNat stack
        .ok { st with stack := s1 }
      else if 0 < effect then
        .ok { st with stack := stack ++ List.replicate effect.toNat (Value.str ("<" ++ inst.opname ++ "_result>")) }
      else .ok st
    | Option.none => .ok st

/-- One simulated instruction: record the stack before, apply the stack
effect, record the stack after and the locals snapshot.  The source's
`arg_str = str(inst.argrepr) if inst.argrepr else ""` is the identity on
strings. -/
def simulateInstruction (consts : List Value) (varnames : List String)
    (se : Nat → Nat → Option Int) (inst : Instr) (st : SimState) :
    Except SimError (ExecutionStep × SimState) := do
  let st1 ← stepStack consts varnames se inst st
  .ok ({ offset := inst.offset, opcode := inst.opname, arg := inst.argrepr,
         stack_before := st.stack, stack_after := st1.stack,
         locals_snapshot := st1.locals }, st1)

/-- `StackSimulator._init_locals`, positional binding step:
`for i, arg in enumerate(args): if i < len(params): locals[params[i]] = arg`. -/
def bindPositional (params : List String) :
    Nat → List Value → List (String × Value) → List (String × Value)
  | _, [], loc => loc
  | i, arg :: args, loc =>
    match params.get? i with
    | some name => bindPositional params (i + 1) args (dinsert loc name arg)
    | Option.none => bindPositional params (i + 1) args loc

/-- `StackSimulator._init_locals`: positional arguments, then keyword
arguments, then defaults for parameters still unbound.  The ordered parameter
list and the defaults mapping come from the external `inspect` collaborator. -/
def initLocals (params : List String) (defaults : List (String × Value))
    (args : List Value) (kwargs : List (String × Value)) :
    List (String × Value) :=
  let l1 := bindPositional params 0 args []
  let l2 := kwargs.foldl (fun l kv => dinsert l kv.1 kv.2) l1
  params.foldl (fun l name =>
    match dlookup defaults name with
    | some d => if (dlookup l name).isSome then l else dinsert l name d
    | Option.none => l) l2

/-- The instruction loop of `trace_execution`: simulate EVERY instruction in
order, collecting one step each; there is no early exit. -/
def traceLoop (consts : List Value) (varnames : List String)
    (se : Nat → Nat → Option Int) :
    List Instr → SimState → Except SimError (List ExecutionStep)
  | [], _ => .ok []
  | inst :: rest, st => do
    let (step, st1) ← simulateInstruction consts varnames se inst st
    let steps ← traceLoop consts varnames se rest st1
    .ok (step :: steps)

/-- `trace_execution`: build the simulator state from the supplied arguments
and run the instruction loop over the whole decoded sequence (table printing
is presentation and omitted). -/
def trace_execution (consts : List Value) (varnames : List String)
    (se : Nat → Nat → Option Int) (params : List String)
    (defaults : List (String × Value)) (args : List Value)
    (kwargs : List (String × Value)) (instrs : List Instr) :
    Except SimError (List ExecutionStep) :=
  traceLoop consts varnames se instrs ⟨[], initLocals params defaults args kwargs⟩


/-! ### Claims C1, C7, C8, C10: simulator theorems -/

/-- A stack-effect lookup with no information (`dis.stack_effect` raising on
every query), used to instantiate concrete runs. -/
def se0 : Nat → Nat → Option Int := fun _ _ => Option.none

/-- The program `push 2; push 3; add` (constants table `[2, 3]`). -/
def addProg : List Instr :=
  [⟨0, "LOAD_CONST", 100, some 0, some (ArgVal.int 0), "2"⟩,
   ⟨2, "LOAD_CONST", 100, some 1, some (ArgVal.int 1), "3"⟩,
   ⟨4, "BINARY_OP", 122, some 0, Option.none, "+"⟩]

/-- The program `push 1; push 0; divide` (constants table `[1, 0]`). -/
def divProg : List Instr :=
  [⟨0, "LOAD_CONST", 100, some 0, some (ArgVal.int 0), "1"⟩,
   ⟨2, "LOAD_CONST", 100, some 1, some (ArgVal.int 1), "0"⟩,
   ⟨4, "BINARY_OP", 122, some 11, Option.none, "/"⟩]

/-- A two-instruction program whose FIRST instruction is a return. -/
def retProg : List Instr :=
  [⟨0, "RETURN_VALUE", 83, Option.none, Option.none, ""⟩,
   ⟨2, "RESUME", 151, some 0, Option.none, ""⟩]

theorem exceptOkBind {ε α β : Type} (a : α) (f : α → Except ε β) :
    (Except.ok a : Except ε α) >>= f = f a := rfl

theorem exceptErrorBind {ε α β : Type} (e : ε) (f : α → Except ε β) :
    (Except.error e : Except ε α) >>= f = Except.error e := rfl

theorem traceLoop_shape (consts : List Value) (varnames : List String)
    (se : Nat → Nat → Option Int) :
    ∀ (instrs : List Instr) (st : SimState) (steps : List ExecutionStep),
      traceLoop consts varnames se instrs st = .ok steps →
      steps.map ExecutionStep.offset = instrs.map Instr.offset ∧
        steps.map ExecutionStep.opcode = instrs.map Instr.opname := by
  intro instrs
  induction instrs with
  | nil =>
    intro st steps h
    unfold traceLoop at h
    cases h
    exact ⟨rfl, rfl⟩
  | cons inst rest ih =>
    intro st steps h
    unfold traceLoop at h
    cases hsim : simulateInstruction consts varnames se inst st with
    | error e =>
      rw [hsim, exceptErrorBind] at h
      cases h
    | ok p =>
      obtain ⟨step, st1⟩ := p
      rw [hsim, exceptOkBind] at h
      simp only at h
      cases htl : traceLoop consts varnames se rest st1 with
      | error e =>
        rw [htl, exceptErrorBind] at h
        cases h
      | ok steps1 =>
        rw [htl, exceptOkBind] at h
        cases h
        have hstep : step.offset = inst.offset ∧ step.opcode = inst.opname := by
          unfold simulateInstruction at hsim
          cases hss : stepStack consts varnames se inst st with
          | error e => rw [hss, exceptErrorBind] at hsim; cases hsim
          | ok st2 =>
            rw [hss, exceptOkBind] at hsim
            cases hsim
            exact ⟨rfl, rfl⟩
        obtain ⟨h1, h2⟩ := ih st1 steps1 htl
        constructor
        · simp [hstep.1, h1]
        · simp [hstep.2, h2]

/-- Counterexample for C1: tracing a two-instruction program whose first
instruction is `RETURN_VALUE` produces two steps, not one — the loop does not
stop at the first terminal instruction. -/
theorem trace_execution_no_early_stop_counterexample :
    (trace_execution [] [] se0 [] [] [] [] retProg).toOption.map List.length
        = some 2 ∧
      (retProg.head?.map Instr.opname = some "RETURN_VALUE") ∧
      (2 : Nat) ≠ 1 := by
  exact ⟨rfl, rfl, by decide⟩

/-- Amended C1: the trace contains exactly one `ExecutionStep` per input
instruction, in sequence order, for the ENTIRE sequence — the simulator never
stops early at a return instruction. -/
theorem trace_execution_one_step_per_instruction (consts : List Value)
    (varnames : List String) (se : Nat → Nat → Option Int)
    (params : List String) (defaults : List (String × Value))
    (args : List Value) (kwargs : List (String × Value))
    (instrs : List Instr) (steps : List ExecutionStep)
    (h : trace_execution consts varnames se params defaults args kwargs instrs
      = .ok steps) :
    steps.map ExecutionStep.offset = instrs.map Instr.offset ∧
      steps.map ExecutionStep.opcode = instrs.map Instr.opname :=
  traceLoop_shape consts varnames se instrs _ steps h

/-- Witness for the amended C1 at the concrete return-first program. -/
theorem trace_execution_one_step_per_instruction_witness :
    ∃ steps, trace_execution [] [] se0 [] [] [] [] retProg = .ok steps ∧
      steps.map ExecutionStep.offset = retProg.map Instr.offset ∧
      steps.map ExecutionStep.opcode = retProg.map Instr.opname := by
  match htr : trace_execution [] [] se0 [] [] [] [] retProg with
  | .ok steps =>
    exact ⟨steps, rfl, trace_execution_one_step_per_instruction
      [] [] se0 [] [] [] [] retProg steps htr⟩
  | .error e => exact absurd htr (by intro hcontra; cases hcontra)

/-- Claim C8: the analysis is deterministic — both `extract_basic_blocks` and
`trace_execution` are pure functions of their inputs (no global mutable state
in the model), so two runs on the same instruction sequence and arguments are
definitionally equal. -/
theorem analysis_deterministic (instrs : List Instr) (consts : List Value)
    (varnames : List String) (se : Nat → Nat → Option Int)
    (params : List String) (defaults : List (String × Value))
    (args : List Value) (kwargs : List (String × Value)) :
    extract_basic_blocks instrs = extract_basic_blocks instrs ∧
      trace_execution consts varnames se params defaults args kwargs instrs
        = trace_execution consts varnames se params defaults args kwargs
            instrs :=
  ⟨rfl, rfl⟩

theorem pyPop_concat (s : List Value) (v : Value) :
    pyPop (s ++ [v]) = .ok (v, s) := by
  simp [pyPop, List.getLast?_concat, List.dropLast_concat]

/-- Integer operands whose magnitude stays comfortably below the IEEE-double
range (about `2 ^ 1024`): for such operands no implicit host int-to-float
conversion, and no true-division result (whose magnitude is at most the
dividend's), can raise OverflowError.  Float-kind operands carry no bound:
their `+ - * / // %` overflow silently to infinity on the host. -/
def boundedInt : Int ⊕ ℚ → Prop
  | Sum.inl n => n.natAbs < 2 ^ 1023
  | Sum.inr _ => True

/-- The operand/operator combinations on which the host's control flow
(raise vs push) provably agrees with `pyArith`: both operands within the
double range, and `**` only on integer-kind operands.  Excluded and outside
the exact model: `**` with a float-kind operand (a fractional exponent makes
the host push an irrational float, or a complex number for a negative base,
and even an integral float exponent can raise OverflowError on result
overflow) and beyond-double-range integers (their implicit float conversion
raises OverflowError). -/
def exactDomain (x y : Int ⊕ ℚ) (op : String) : Prop :=
  boundedInt x ∧ boundedInt y ∧
    (op = "**" → (∃ a, x = Sum.inl a) ∧ ∃ b, y = Sum.inl b)

/-- Claim C7: a `BINARY_OP` over two numeric operands and a listed operator
pushes the concretely folded host result; when the host arithmetic raises it
instead pushes the display text `(left OP right)` and never propagates the
error.  The fold equation is stated on the `exactDomain` fragment, where
host control flow is exactly `pyArith` and host numbers are exactly (for
integer results) or rationally-idealised (for float results) the model's
values; outside it the host pushes an irrational, complex or
overflow-dependent value no exact embedding can state.  The two spec
scenarios are included verbatim: `push 2; push 3; add` ends with stack `[5]`,
and `push 1; push 0; divide` ends with the symbolic placeholder `"(1 / 0)"`,
the whole trace returned without error. -/
theorem simulate_binary_arith_fold
    (consts : List Value) (varnames : List String) (se : Nat → Nat → Option Int)
    (off : Int) (opc : Nat) (a : Option Nat) (av : Option ArgVal)
    (rest : List Value) (locals : List (String × Value))
    (l r : Value) (op : String) (x y : Int ⊕ ℚ)
    (hx : numVal l = some x) (hy : numVal r = some y)
    (hop : op ∈ ["+", "-", "*", "/", "//", "%", "**"])
    (_hdom : exactDomain x y op) :
    stepStack consts varnames se ⟨off, "BINARY_OP", opc, a, av, op⟩
        ⟨rest ++ [l, r], locals⟩
      = .ok ⟨rest ++ [(match pyArith x y op with
          | some v => v
          | Option.none => Value.str (binDisplay l op r))], locals⟩ ∧
    (trace_execution [Value.int 2, Value.int 3] [] se0 [] [] [] []
        addProg).toOption.map
          (fun steps => (steps.map ExecutionStep.stack_after).getLast?)
      = some (some [Value.int 5]) ∧
    (trace_execution [Value.int 1, Value.int 0] [] se0 [] [] [] []
        divProg).toOption.map
          (fun steps => (steps.map ExecutionStep.stack_after).getLast?)
      = some (some [Value.str "(1 / 0)"]) := by
  refine ⟨?_, rfl, rfl⟩
  have hne : op ≠ "" := by
    intro he
    subst he
    simp at hop
  have hlen : 2 ≤ (rest ++ [l, r]).length := by simp
  unfold stepStack
  simp only [show ("BINARY_OP" = "RESUME") = False by simp,
    show ("BINARY_OP" = "LOAD_CONST") = False by simp,
    show ("BINARY_OP" = "LOAD_FAST") = False by simp,
    show ("BINARY_OP" = "LOAD_FAST_LOAD_FAST") = False by simp,
    show ("BINARY_OP" = "LOAD_GLOBAL") = False by simp,
    show ("BINARY_OP" = "STORE_FAST") = False by simp,
    show ("BINARY_OP" = "STORE_FAST_STORE_FAST") = False by simp,
    if_false, if_pos rfl]
  rw [if_pos trivial, if_pos hlen]
  have hsplit : rest ++ [l, r] = (rest ++ [l]) ++ [r] := by simp
  rw [hsplit, pyPop_concat, exceptOkBind]
  simp only
  rw [pyPop_concat, exceptOkBind]
  simp only
  rw [if_pos hne]
  simp only [binResult, hx, hy, if_pos hop]

/-- Witness for C7: folding `2 + 3` on an otherwise-empty stack pushes the
concrete 5. -/
theorem simulate_binary_arith_fold_witness :
    stepStack [] [] se0 ⟨4, "BINARY_OP", 122, some 0, Option.none, "+"⟩
        ⟨[Value.int 2, Value.int 3], []⟩
      = .ok ⟨[Value.int 5], []⟩ := by
  have hdom : exactDomain (Sum.inl 2) (Sum.inl 3) "+" := by
    refine ⟨?_, ?_, fun hcontra => absurd hcontra (by decide)⟩
    · show (2 : Int).natAbs < 2 ^ 1023
      norm_num
    · show (3 : Int).natAbs < 2 ^ 1023
      norm_num
  have h := simulate_binary_arith_fold [] [] se0 4 122 (some 0) Option.none
    [] [] (Value.int 2) (Value.int 3) "+" (Sum.inl 2) (Sum.inl 3) rfl rfl
    (by simp) hdom
  exact h.1

/-! ### Claim C10: every pop is guarded, so no stack underflow -/

theorem pyPop_ok {s : List Value} (h : s ≠ []) :
    ∃ v, pyPop s = .ok (v, s.dropLast) := by
  cases hl : s.getLast? with
  | none => exact absurd (List.getLast?_eq_none_iff.1 hl) h
  | some v => exact ⟨v, by simp [pyPop, hl]⟩

theorem pyIndexNeg_ne_underflow (s : List Value) (n : Nat) :
    pyIndexNeg s n ≠ .error SimError.underflow := by
  unfold pyIndexNeg
  split
  · intro h
    cases h
  · intro h
    simp at h

theorem pyIndexNeg_error_eq {s : List Value} {n : Nat} {e : SimError}
    (h : pyIndexNeg s n = .error e) : e = SimError.indexError := by
  unfold pyIndexNeg at h
  split at h
  · cases h
  · cases h
    rfl

theorem popArgsLoop_ok :
    ∀ (n : Nat) (s acc : List Value), ∃ out, popArgsLoop n s acc = .ok out := by
  intro n
  induction n with
  | zero => intro s acc; exact ⟨(s, acc), rfl⟩
  | succ n ih =>
    intro s acc
    unfold popArgsLoop
    by_cases h : s = []
    · rw [if_neg (by simp [h])]
      exact ih s acc
    · rw [if_pos h]
      obtain ⟨v, hp⟩ := pyPop_ok h
      rw [hp, exceptOkBind]
      exact ih s.dropLast (v :: acc)

theorem storeNamesLoop_ok :
    ∀ (names : List String) (s : List Value) (loc : List (String × Value)),
      ∃ out, storeNamesLoop names s loc = .ok out := by
  intro names
  induction names with
  | nil => intro s loc; exact ⟨(s, loc), rfl⟩
  | cons name rest ih =>
    intro s loc
    unfold storeNamesLoop
    by_cases h : s = []
    · rw [if_neg (by simp [h])]
      exact ih s loc
    · rw [if_pos h]
      obtain ⟨v, hp⟩ := pyPop_ok h
      rw [hp, exceptOkBind]
      exact ih s.dropLast (dinsert loc name v)

theorem buildMapLoop_ok :
    ∀ (n : Nat) (s : List Value) (d : List (Value × Value)),
      ∃ out, buildMapLoop n s d = .ok out := by
  intro n
  induction n with
  | zero => intro s d; exact ⟨(s, d), rfl⟩
  | succ n ih =>
    intro s d
    unfold buildMapLoop
    by_cases h : 2 ≤ s.length
    · rw [if_pos h]
      have hne : s ≠ [] := by
        intro he
        rw [he] at h
        simp at h
      obtain ⟨v, hp⟩ := pyPop_ok hne
      rw [hp, exceptOkBind]
      simp only []
      have hne2 : s.dropLast ≠ [] := by
        have : s.dropLast.length = s.length - 1 := List.length_dropLast s
        intro he
        rw [he] at this
        simp at this
        omega
      obtain ⟨k, hp2⟩ := pyPop_ok hne2
      rw [hp2, exceptOkBind]
      simp only []
      exact ih s.dropLast.dropLast (dinsertValue d k v)
    · rw [if_neg h]
      exact ih s d

theorem popNLoop_ok :
    ∀ (n : Nat) (s : List Value), ∃ out, popNLoop n s = .ok out := by
  intro n
  induction n with
  | zero => intro s; exact ⟨s, rfl⟩
  | succ n ih =>
    intro s
    unfold popNLoop
    by_cases h : s = []
    · rw [if_neg (by simp [h])]
      exact ih s
    · rw [if_pos h]
      obtain ⟨v, hp⟩ := pyPop_ok h
      rw [hp, exceptOkBind]
      exact ih s.dropLast

theorem callNullPop_ok (s1 : List Value) : ∃ s2, callNullPop s1 = .ok s2 := by
  unfold callNullPop
  cases hl : s1.getLast? with
  | none => exact ⟨s1, rfl⟩
  | some v =>
    have hne : s1 ≠ [] := by
      intro he
      rw [he] at hl
      cases hl
    cases v
    case none =>
      obtain ⟨w, hp⟩ := pyPop_ok hne
      rw [hp, exceptOkBind]
      exact ⟨s1.dropLast, rfl⟩
    all_goals exact ⟨s1, rfl⟩

/-- Every pop in `simulate_instruction` is guarded by a stack-depth check:
the stack-effect function never fails with a stack underflow, whatever the
instruction and state. -/
theorem stepStack_no_underflow (consts : List Value) (varnames : List String)
    (se : Nat → Nat → Option Int) (inst : Instr) (st : SimState) :
    stepStack consts varnames se inst st ≠ .error SimError.underflow := by
  unfold stepStack
  by_cases h1 : inst.opname = "RESUME"
  case pos => rw [if_pos h1]; simp
  rw [if_neg h1]
  by_cases h2 : inst.opname = "LOAD_CONST"
  case pos =>
    rw [if_pos h2]
    cases inst.arg with
    | none => simp
    | some i =>
      simp only []
      cases consts.get? i with
      | none => simp
      | some c => simp
  rw [if_neg h2]
  by_cases h3 : inst.opname = "LOAD_FAST"
  case pos =>
    rw [if_pos h3]
    cases inst.arg with
    | none => simp
    | some i =>
      simp only []
      cases varnames.get? i with
      | none => simp
      | some name => simp
  rw [if_neg h3]
  by_cases h4 : inst.opname = "LOAD_FAST_LOAD_FAST"
  case pos =>
    rw [if_pos h4]
    by_cases ha : inst.argrepr ≠ ""
    · rw [if_pos ha]; simp
    · rw [if_neg ha]
      cases inst.arg with
      | none => simp
      | some a => simp
  rw [if_neg h4]
  by_cases h5 : inst.opname = "LOAD_GLOBAL"
  case pos =>
    rw [if_pos h5]
    cases (if inst.argrepr ≠ "" then (splitWs inst.argrepr).head? else some "global") with
    | none => simp
    | some n => simp
  rw [if_neg h5]
  by_cases h6 : inst.opname = "STORE_FAST"
  case pos =>
    rw [if_pos h6]
    cases inst.arg with
    | none => simp
    | some i =>
      simp only []
      cases varnames.get? i with
      | none => simp
      | some name =>
        simp only []
        by_cases hs : st.stack ≠ []
        · rw [if_pos hs]
          obtain ⟨v, hp⟩ := pyPop_ok hs
          rw [hp, exceptOkBind]
          simp
        · rw [if_neg hs]; simp
  rw [if_neg h6]
  by_cases h7 : inst.opname = "STORE_FAST_STORE_FAST"
  case pos =>
    rw [if_pos h7]
    by_cases ha : inst.argrepr ≠ ""
    · rw [if_pos ha]
      obtain ⟨out, hloop⟩ := storeNamesLoop_ok (splitCommaStrip inst.argrepr).reverse st.stack st.locals
      rw [hloop, exceptOkBind]
      simp
    · rw [if_neg ha]; simp
  rw [if_neg h7]
  by_cases h8 : inst.opname = "BINARY_OP"
  case pos =>
    rw [if_pos h8]
    by_cases hs : 2 ≤ st.stack.length
    · rw [if_pos hs]
      have hne : st.stack ≠ [] := by
        intro he; rw [he] at hs; simp at hs
      obtain ⟨r, hp⟩ := pyPop_ok hne
      rw [hp, exceptOkBind]
      simp only []
      have hne2 : st.stack.dropLast ≠ [] := by
        have hlen := List.length_dropLast st.stack
        intro he
        rw [he] at hlen
        simp at hlen
        omega
      obtain ⟨l, hp2⟩ := pyPop_ok hne2
      rw [hp2, exceptOkBind]
      simp
    · rw [if_neg hs]; simp
  rw [if_neg h8]
  by_cases h9 : inst.opname = "UNARY_NEGATIVE"
  case pos =>
    rw [if_pos h9]
    by_cases hs : st.stack ≠ []
    · rw [if_pos hs]
      obtain ⟨v, hp⟩ := pyPop_ok hs
      rw [hp, exceptOkBind]
      simp only []
      cases numVal v with
      | none => simp
      | some n =>
        cases n with
        | inl a => simp
        | inr q => simp
    · rw [if_neg hs]; simp
  rw [if_neg h9]
  by_cases h10 : inst.opname = "UNARY_NOT"
  case pos =>
    rw [if_pos h10]
    by_cases hs : st.stack ≠ []
    · rw [if_pos hs]
      obtain ⟨v, hp⟩ := pyPop_ok hs
      rw [hp, exceptOkBind]
      simp
    · rw [if_neg hs]; simp
  rw [if_neg h10]
  by_cases h11 : inst.opname ∈ ["COMPARE_OP", "CONTAINS_OP", "IS_OP"]
  case pos =>
    rw [if_pos h11]
    by_cases hs : 2 ≤ st.stack.length
    · rw [if_pos hs]
      have hne : st.stack ≠ [] := by
        intro he; rw [he] at hs; simp at hs
      obtain ⟨r, hp⟩ := pyPop_ok hne
      rw [hp, exceptOkBind]
      simp only []
      have hne2 : st.stack.dropLast ≠ [] := by
        have hlen := List.length_dropLast st.stack
        intro he
        rw [he] at hlen
        simp at hlen
        omega
      obtain ⟨l, hp2⟩ := pyPop_ok hne2
      rw [hp2, exceptOkBind]
      simp
    · rw [if_neg hs]; simp
  rw [if_neg h11]
  by_cases h12 : inst.opname = "CALL"
  case pos =>
    rw [if_pos h12]
    obtain ⟨⟨s1, args⟩, hpa⟩ := popArgsLoop_ok (inst.arg.getD 0) st.stack []
    rw [hpa, exceptOkBind]
    simp only []
    obtain ⟨s2, hnull⟩ := callNullPop_ok s1
    rw [hnull, exceptOkBind]
    by_cases hs : s2 ≠ []
    · rw [if_pos hs]
      obtain ⟨f, hp⟩ := pyPop_ok hs
      rw [hp, exceptOkBind]
      simp
    · rw [if_neg hs]; simp
  rw [if_neg h12]
  by_cases h13 : inst.opname = "CALL_FUNCTION"
  case pos =>
    rw [if_pos h13]
    obtain ⟨⟨s1, args⟩, hpa⟩ := popArgsLoop_ok (inst.arg.getD 0) st.stack []
    rw [hpa, exceptOkBind]
    simp only []
    by_cases hs : s1 ≠ []
    · rw [if_pos hs]
      obtain ⟨f, hp⟩ := pyPop_ok hs
      rw [hp, exceptOkBind]
      simp
    · rw [if_neg hs]; simp
  rw [if_neg h13]
  by_cases h14 : inst.opname = "RETURN_VALUE"
  case pos =>
    rw [if_pos h14]
    by_cases hs : st.stack ≠ []
    · rw [if_pos hs]
      obtain ⟨v, hp⟩ := pyPop_ok hs
      rw [hp, exceptOkBind]
      simp
    · rw [if_neg hs]; simp
  rw [if_neg h14]
  by_cases h15 : inst.opname = "RETURN_CONST"
  case pos => rw [if_pos h15]; simp
  rw [if_neg h15]
  by_cases h16 : inst.opname = "POP_TOP"
  case pos =>
    rw [if_pos h16]
    by_cases hs : st.stack ≠ []
    · rw [if_pos hs]
      obtain ⟨v, hp⟩ := pyPop_ok hs
      rw [hp, exceptOkBind]
      simp
    · rw [if_neg hs]; simp
  rw [if_neg h16]
  by_cases h17 : inst.opname = "DUP_TOP"
  case pos =>
    rw [if_pos h17]
    by_cases hs : st.stack ≠ []
    · rw [if_pos hs]
      cases hidx : pyIndexNeg st.stack 1 with
      | ok v => rw [exceptOkBind]; simp
      | error e =>
        rw [exceptErrorBind]
        have he := pyIndexNeg_error_eq hidx
        subst he
        simp
    · rw [if_neg hs]; simp
  rw [if_neg h17]
  by_cases h18 : inst.opname = "BUILD_LIST"
  case pos =>
    rw [if_pos h18]
    obtain ⟨⟨s1, items⟩, hpa⟩ := popArgsLoop_ok (inst.arg.getD 0) st.stack []
    rw [hpa, exceptOkBind]
    simp
  rw [if_neg h18]
  by_cases h19 : inst.opname = "BUILD_TUPLE"
  case pos =>
    rw [if_pos h19]
    obtain ⟨⟨s1, items⟩, hpa⟩ := popArgsLoop_ok (inst.arg.getD 0) st.stack []
    rw [hpa, exceptOkBind]
    simp
  rw [if_neg h19]
  by_cases h20 : inst.opname = "BUILD_MAP"
  case pos =>
    rw [if_pos h20]
    obtain ⟨⟨s1, d⟩, hbm⟩ := buildMapLoop_ok (inst.arg.getD 0) st.stack []
    rw [hbm, exceptOkBind]
    simp
  rw [if_neg h20]
  by_cases h21 : inst.opname ∈ ["JUMP_FORWARD", "JUMP_BACKWARD",
      "JUMP_IF_TRUE_OR_POP", "JUMP_IF_FALSE_OR_POP", "POP_JUMP_IF_TRUE",
      "POP_JUMP_IF_FALSE", "POP_JUMP_IF_NONE", "POP_JUMP_IF_NOT_NONE"]
  case pos =>
    rw [if_pos h21]
    by_cases hc : strContains inst.opname "POP_JUMP" = true ∧ st.stack ≠ []
    · rw [if_pos hc]
      obtain ⟨v, hp⟩ := pyPop_ok hc.2
      rw [hp, exceptOkBind]
      simp
    · rw [if_neg hc]; simp
  rw [if_neg h21]
  by_cases h22 : inst.opname = "GET_ITER"
  case pos =>
    rw [if_pos h22]
    by_cases hs : st.stack ≠ []
    · rw [if_pos hs]
      obtain ⟨v, hp⟩ := pyPop_ok hs
      rw [hp, exceptOkBind]
      simp
    · rw [if_neg hs]; simp
  rw [if_neg h22]
  by_cases h23 : inst.opname = "FOR_ITER"
  case pos => rw [if_pos h23]; simp
  rw [if_neg h23]
  by_cases h24 : inst.opname = "PUSH_NULL"
  case pos => rw [if_pos h24]; simp
  rw [if_neg h24]
  by_cases h25 : inst.opname = "COPY"
  case pos =>
    rw [if_pos h25]
    by_cases hs : (match inst.arg with
        | some a => if a = 0 then 1 else a
        | Option.none => 1) ≤ st.stack.length
    · rw [if_pos hs]
      cases hidx : pyIndexNeg st.stack (match inst.arg with
          | some a => if a = 0 then 1 else a
          | Option.none => 1) with
      | ok v => rw [exceptOkBind]; simp
      | error e =>
        rw [exceptErrorBind]
        have he := pyIndexNeg_error_eq hidx
        subst he
        simp
    · rw [if_neg hs]; simp
  rw [if_neg h25]
  by_cases h26 : inst.opname = "SWAP"
  case pos =>
    rw [if_pos h26]
    by_cases hs : (match inst.arg with
        | some a => if a = 0 then 2 else a
        | Option.none => 2) ≤ st.stack.length
    · rw [if_pos hs]
      cases hidx : pyIndexNeg st.stack 1 with
      | error e =>
        rw [exceptErrorBind]
        have he := pyIndexNeg_error_eq hidx
        subst he
        simp
      | ok v1 =>
        rw [exceptOkBind]
        cases hidx2 : pyIndexNeg st.stack (match inst.arg with
            | some a => if a = 0 then 2 else a
            | Option.none => 2) with
        | error e =>
          rw [exceptErrorBind]
          have he := pyIndexNeg_error_eq hidx2
          subst he
          simp
        | ok vn => rw [exceptOkBind]; simp
    · rw [if_neg hs]; simp
  rw [if_neg h26]
  cases hse : se inst.opcode (inst.arg.getD 0) with
  | none => simp
  | some effect =>
    simp only []
    by_cases heff : effect < 0
    · rw [if_pos heff]
      obtain ⟨s1, hpn⟩ := popNLoop_ok (-effect).toNat st.stack
      rw [hpn, exceptOkBind]
      simp
    · rw [if_neg heff]
      by_cases heff2 : 0 < effect
      · rw [if_pos heff2]; simp
      · rw [if_neg heff2]; simp

/-- Counterexample for C10: the claim's "always returns an ExecutionStep"
conjunct fails — a `LOAD_CONST` whose argument indexes outside the constants
table raises IndexError (an unguarded table lookup, though not a stack
underflow). -/
theorem simulate_instruction_index_error_counterexample :
    simulateInstruction [] [] se0 ⟨0, "LOAD_CONST", 100, some 0, Option.none, ""⟩
        ⟨[], []⟩ = .error SimError.indexError := rfl

/-- Amended C10: `simulate_instruction` is total with respect to stack depth —
every pop is guarded, so the call never raises a stack-underflow error for
any instruction and any state; whenever it returns a step, the step records
the entry stack as `stack_before` and the resulting stack and locals.  (Only
non-stack table lookups can still raise, as the counterexample shows.) -/
theorem simulate_instruction_no_underflow (consts : List Value)
    (varnames : List String) (se : Nat → Nat → Option Int) (inst : Instr)
    (st : SimState) :
    simulateInstruction consts varnames se inst st
        ≠ .error SimError.underflow ∧
      ∀ step st1,
        simulateInstruction consts varnames se inst st = .ok (step, st1) →
        step.stack_before = st.stack ∧ step.stack_after = st1.stack ∧
          step.locals_snapshot = st1.locals := by
  constructor
  · unfold simulateInstruction
    cases hss : stepStack consts varnames se inst st with
    | error e =>
      rw [exceptErrorBind]
      intro hcontra
      cases hcontra
      exact stepStack_no_underflow consts varnames se inst st hss
    | ok st1 =>
      rw [exceptOkBind]
      simp
  · intro step st1 h
    unfold simulateInstruction at h
    cases hss : stepStack consts varnames se inst st with
    | error e =>
      rw [hss, exceptErrorBind] at h
      cases h
    | ok st2 =>
      rw [hss, exceptOkBind] at h
      cases h
      exact ⟨rfl, rfl, rfl⟩

/-- Witness for the amended C10 at a concrete state: a `POP_TOP` on an empty
stack neither underflows nor changes anything. -/
theorem simulate_instruction_no_underflow_witness :
    simulateInstruction [] [] se0 ⟨0, "POP_TOP", 1, Option.none, Option.none, ""⟩
        ⟨[], []⟩ ≠ .error SimError.underflow ∧
      ∀ step st1,
        simulateInstruction [] [] se0
            ⟨0, "POP_TOP", 1, Option.none, Option.none, ""⟩ ⟨[], []⟩
          = .ok (step, st1) →
        step.stack_before = ([] : List Value) ∧
          step.stack_after = st1.stack ∧ step.locals_snapshot = st1.locals :=
  simulate_instruction_no_underflow [] [] se0
    ⟨0, "POP_TOP", 1, Option.none, Option.none, ""⟩ ⟨[], []⟩
